import Mathlib

/-!
# Battleship core (`Game.cpp`): shallow embedding and verified properties

The C++ classes `ShipSegment`, `Ship`, `ShipManager` and `GameField` are embedded as
Lean structures; every member function becomes a function on explicit state.

* `size_t` values are natural numbers; sums of two `size_t` values are reduced
  modulo `2^64` (`wrap`).
* A call yields a `Result`: normal completion (`ok`), a thrown exception (`throw`),
  both carrying the state of the receiving object and the lines written to standard
  output, or `undefined` when a `std::vector` is indexed outside its bounds.
-/

namespace Game

/-! ## Machine integers, exceptions, output -/

/-- Number of values of `size_t` (64-bit). -/
def SIZE_RANGE : Nat := 18446744073709551616

/-- Reduction of a `size_t` sum modulo `2^64`. -/
def wrap (n : Nat) : Nat := n % SIZE_RANGE

/-- The exception classes thrown by the program. -/
inductive Exc where
  | out_of_range
  | invalid_argument
  | runtime_error
  | length_error
  deriving DecidableEq, Repr

/-- One line written to standard output by `attackCell` or `attackShip`. -/
inductive Msg where
  | Hit (ship segment : Nat)
  | Miss
  | Destroyed (ship : Nat)
  deriving DecidableEq, Repr

/-- The text of an output line. -/
def Msg.render : Msg → String
  | .Hit i j => "Hit on ship " ++ toString i ++ ", segment " ++ toString j
  | .Miss => "Miss!"
  | .Destroyed i => "Ship " ++ toString i ++ " is destroyed!"

/-- Result of a member-function call on an object of type `σ` returning an `α`. -/
inductive Result (σ α : Type) where
  | ok (state : σ) (value : α) (out : List Msg)
  | throw (state : σ) (e : Exc) (out : List Msg)
  | undefined
  deriving DecidableEq, Repr

/-! ## Enumerations -/

inductive Orientation where
  | Horizontal
  | Vertical
  deriving DecidableEq, Repr

inductive CellStatus where
  | Unknown
  | Empty
  | Ship
  deriving DecidableEq, Repr

/-! ## `ShipSegment` -/

/-- The nested enumeration `ShipSegment::State`. -/
inductive State where
  | Intact
  | Damaged
  | Destroyed
  deriving DecidableEq, Repr

structure ShipSegment where
  state : State
  deriving DecidableEq, Repr

/-- Default constructor `ShipSegment()`. -/
def ShipSegment.ctor : ShipSegment := { state := State.Intact }

def ShipSegment.takeDamage (s : ShipSegment) : ShipSegment :=
  if s.state = State.Intact then { state := State.Damaged }
  else if s.state = State.Damaged then { state := State.Destroyed }
  else s

def ShipSegment.isDestroyed (s : ShipSegment) : Bool :=
  decide (s.state = State.Destroyed)

def ShipSegment.getState (s : ShipSegment) : String :=
  match s.state with
  | State.Intact => "Intact"
  | State.Damaged => "Damaged"
  | State.Destroyed => "Destroyed"

/-! ## `Ship` -/

structure Ship where
  length : Nat
  orientation : Orientation
  segments : List ShipSegment
  deriving DecidableEq, Repr

/-- Constructor `Ship(len, ori)`: `len` default-constructed segments. -/
def Ship.ctor (len : Nat) (ori : Orientation) : Ship :=
  { length := len, orientation := ori, segments := List.replicate len ShipSegment.ctor }

def Ship.getLength (s : Ship) : Nat := s.length

def Ship.getOrientation (s : Ship) : Orientation := s.orientation

/-- Member `Ship::attackSegment`: the range check is against `length`; the element
access `segments[index]` is undefined outside the vector. -/
def Ship.attackSegment (s : Ship) (index : Nat) : Result Ship Unit :=
  if index ≥ s.length then Result.throw s Exc.out_of_range []
  else
    match s.segments[index]? with
    | none => Result.undefined
    | some seg =>
      Result.ok { s with segments := s.segments.set index seg.takeDamage } () []

/-- The range-for loop of `Ship::isDestroyed` over the remaining segments. -/
def Ship.isDestroyedLoop : List ShipSegment → Bool
  | [] => true
  | segment :: rest => if !segment.isDestroyed then false else Ship.isDestroyedLoop rest

def Ship.isDestroyed (s : Ship) : Bool := Ship.isDestroyedLoop s.segments

/-- Class invariant of `Ship`: as many segments as `length`. -/
def Ship.wf (s : Ship) : Prop := s.segments.length = s.length

instance (s : Ship) : Decidable s.wf := by unfold Ship.wf; infer_instance

/-- A sequence of `attackSegment` calls on one ship, stopping at the first call
that does not complete. -/
def Ship.attackSegments (s : Ship) : List Nat → Result Ship Unit
  | [] => Result.ok s () []
  | index :: rest =>
    match s.attackSegment index with
    | Result.ok s1 _ _ => Ship.attackSegments s1 rest
    | r => r

/-! ## `ShipManager` -/

structure ShipManager where
  ships : List Ship
  deriving DecidableEq, Repr

/-- Default constructor: no ships. -/
def ShipManager.ctor : ShipManager := { ships := [] }

def ShipManager.addShip (m : ShipManager) (ship : Ship) : ShipManager :=
  { ships := m.ships ++ [ship] }

def ShipManager.getShips (m : ShipManager) : List Ship := m.ships

/-! ## `GameField` -/

structure GameField where
  width : Nat
  height : Nat
  field : List (List CellStatus)
  shipManager : ShipManager
  deriving DecidableEq, Repr

/-- Value of `std::vector<CellStatus>::max_size()`: `PTRDIFF_MAX / sizeof(CellStatus)` with
a 4-byte enumeration on a 64-bit target. -/
def ROW_MAX_SIZE : Nat := 2305843009213693951

/-- Value of `std::vector<std::vector<CellStatus>>::max_size()`:
`PTRDIFF_MAX / sizeof(std::vector<CellStatus>)` with a 24-byte vector object. -/
def FIELD_MAX_SIZE : Nat := 384307168202282325

/-- Constructor `GameField(w, h)` for vectors whose `max_size()` are `maxCells` (a row) and
`maxRows` (the matrix). The member initialiser `field(h, std::vector<CellStatus>(w, Unknown))`
runs first: it builds the row, then the matrix, and either construction throws
`std::length_error` when the requested size exceeds `max_size()`. Only then does the body
reject an empty dimension. The heap is taken to satisfy every request within `max_size()`. -/
def GameField.ctorWith (maxCells maxRows w h : Nat) : Except Exc GameField :=
  if w > maxCells then Except.error Exc.length_error
  else if h > maxRows then Except.error Exc.length_error
  else
    let g : GameField :=
      { width := w, height := h,
        field := List.replicate h (List.replicate w CellStatus.Unknown),
        shipManager := ShipManager.ctor }
    if w < 1 ∨ h < 1 then Except.error Exc.invalid_argument
    else Except.ok g

/-- Constructor `GameField(w, h)`. -/
def GameField.ctor (w h : Nat) : Except Exc GameField :=
  GameField.ctorWith ROW_MAX_SIZE FIELD_MAX_SIZE w h

/-- Read access `field[ty][tx]`; `none` when either index is outside its vector. -/
def readCell (field : List (List CellStatus)) (tx ty : Nat) : Option CellStatus :=
  match field[ty]? with
  | none => none
  | some row => row[tx]?

/-- Write access `field[ty][tx] = c`; `none` when either index is outside its vector. -/
def writeCell (field : List (List CellStatus)) (tx ty : Nat) (c : CellStatus) :
    Option (List (List CellStatus)) :=
  match field[ty]? with
  | none => none
  | some row => if tx < row.length then some (field.set ty (row.set tx c)) else none

/-- Column of the cell at offset `i` from `x`: `(ori == Horizontal) ? x + i : x`. -/
def targetX (ori : Orientation) (x i : Nat) : Nat :=
  if ori = Orientation.Horizontal then wrap (x + i) else x

/-- Row of the cell at offset `i` from `y`: `(ori == Vertical) ? y + i : y`. -/
def targetY (ori : Orientation) (y i : Nat) : Nat :=
  if ori = Orientation.Vertical then wrap (y + i) else y

/-- Outcome of the collision loop of `placeShip`. -/
inductive Collision where
  | free
  | occupied
  | undefined
  deriving DecidableEq, Repr

/-- The collision loop of `placeShip` from counter `i` with `n` iterations left. -/
def collisionLoop (field : List (List CellStatus)) (ori : Orientation) (x y : Nat) :
    Nat → Nat → Collision
  | 0, _ => Collision.free
  | n + 1, i =>
    match readCell field (targetX ori x i) (targetY ori y i) with
    | none => Collision.undefined
    | some c =>
      if c ≠ CellStatus.Unknown then Collision.occupied
      else collisionLoop field ori x y n (i + 1)

/-- The marking loop of `placeShip` from counter `i` with `n` iterations left. -/
def markLoop (field : List (List CellStatus)) (ori : Orientation) (x y : Nat) :
    Nat → Nat → Option (List (List CellStatus))
  | 0, _ => some field
  | n + 1, i =>
    match writeCell field (targetX ori x i) (targetY ori y i) CellStatus.Ship with
    | none => none
    | some field1 => markLoop field1 ori x y n (i + 1)

def GameField.placeShip (g : GameField) (ship : Ship) (x y : Nat) : Result GameField Bool :=
  let len := ship.getLength
  let ori := ship.getOrientation
  if (ori = Orientation.Horizontal ∧ wrap (x + len) > g.width) ∨
      (ori = Orientation.Vertical ∧ wrap (y + len) > g.height) then
    Result.ok g false []
  else
    match collisionLoop g.field ori x y len 0 with
    | Collision.undefined => Result.undefined
    | Collision.occupied => Result.ok g false []
    | Collision.free =>
      match markLoop g.field ori x y len 0 with
      | none => Result.undefined
      | some field1 =>
        Result.ok { g with field := field1, shipManager := g.shipManager.addShip ship }
          true []

/-- Outcome of the inner loop of `attackCell` for one ship. -/
inductive SegmentScan where
  | found (j tx ty : Nat)
  | notFound
  | undefined
  deriving DecidableEq, Repr

/-- The inner loop of `attackCell` (over the offsets of one ship) from counter `j`
with `n` iterations left. -/
def segmentScan (field : List (List CellStatus)) (ori : Orientation) (x y : Nat) :
    Nat → Nat → SegmentScan
  | 0, _ => SegmentScan.notFound
  | n + 1, j =>
    match readCell field (targetX ori x j) (targetY ori y j) with
    | none => SegmentScan.undefined
    | some c =>
      if c = CellStatus.Ship then SegmentScan.found j (targetX ori x j) (targetY ori y j)
      else segmentScan field ori x y n (j + 1)

/-- Outcome of the outer loop of `attackCell`. -/
inductive ShipScan where
  | found (i j tx ty : Nat)
  | notFound
  | undefined
  deriving DecidableEq, Repr

/-- The outer loop of `attackCell` over the ships from index `i` on. -/
def shipScan (field : List (List CellStatus)) (x y : Nat) : List Ship → Nat → ShipScan
  | [], _ => ShipScan.notFound
  | ship :: rest, i =>
    match segmentScan field ship.getOrientation x y ship.getLength 0 with
    | SegmentScan.undefined => ShipScan.undefined
    | SegmentScan.found j tx ty => ShipScan.found i j tx ty
    | SegmentScan.notFound => shipScan field x y rest (i + 1)

def GameField.attackCell (g : GameField) (x y : Nat) : Result GameField Unit :=
  if x ≥ g.width ∨ y ≥ g.height then Result.throw g Exc.out_of_range []
  else
    match shipScan g.field x y g.shipManager.getShips 0 with
    | ShipScan.undefined => Result.undefined
    | ShipScan.notFound => Result.ok g () [Msg.Miss]
    | ShipScan.found i j tx ty =>
      match g.shipManager.getShips[i]? with
      | none => Result.undefined
      | some ship =>
        match ship.attackSegment j with
        | Result.undefined => Result.undefined
        | Result.throw _ e out => Result.throw g e out
        | Result.ok ship1 _ _ =>
          match writeCell g.field tx ty CellStatus.Empty with
          | none => Result.undefined
          | some field1 =>
            Result.ok
              { g with field := field1,
                       shipManager := { ships := g.shipManager.getShips.set i ship1 } }
              () [Msg.Hit i j]

/-- Representation invariant of `GameField`: `height` rows of `width` cells, both
dimensions being `size_t` values. -/
def GameField.wf (g : GameField) : Prop :=
  g.width < SIZE_RANGE ∧ g.height < SIZE_RANGE ∧ g.field.length = g.height ∧
    ∀ row ∈ g.field, row.length = g.width

instance (g : GameField) : Decidable g.wf := by unfold GameField.wf; infer_instance

/-! ## The scenario of `main` -/

/-- The first part of `main`: a 10 by 10 field on which `ship1` and `ship2` are placed;
a failed construction or placement ends the run. -/
def mainField : Option GameField :=
  match GameField.ctor 10 10 with
  | Except.error _ => none
  | Except.ok field =>
    match field.placeShip (Ship.ctor 3 Orientation.Horizontal) 2 2 with
    | Result.ok field1 true _ =>
      match field1.placeShip (Ship.ctor 2 Orientation.Vertical) 5 5 with
      | Result.ok field2 true _ => some field2
      | _ => none
    | _ => none


/-! ## `ShipManager::attackShip` and the status report -/

/-- Member `ShipManager::attackShip`: range check on the ship index, the attack on the
segment, then the notification when the ship is destroyed. -/
def ShipManager.attackShip (m : ShipManager) (shipIndex segmentIndex : Nat) :
    Result ShipManager Unit :=
  if shipIndex ≥ m.ships.length then Result.throw m Exc.out_of_range []
  else
    match m.ships[shipIndex]? with
    | none => Result.undefined
    | some ship =>
      match ship.attackSegment segmentIndex with
      | Result.undefined => Result.undefined
      | Result.throw _ e out => Result.throw m e out
      | Result.ok ship1 _ _ =>
        if ship1.isDestroyed then
          Result.ok { ships := m.ships.set shipIndex ship1 } () [Msg.Destroyed shipIndex]
        else
          Result.ok { ships := m.ships.set shipIndex ship1 } () []

/-- A sequence of `attackShip` calls against the ship at `shipIndex`, all of which
complete; the result holds the output of each call, in order. -/
def ShipManager.attackShipTrace (m : ShipManager) (shipIndex : Nat) :
    List Nat → Option (ShipManager × List (List Msg))
  | [] => some (m, [])
  | segmentIndex :: rest =>
    match m.attackShip shipIndex segmentIndex with
    | Result.ok m1 _ out =>
      match ShipManager.attackShipTrace m1 shipIndex rest with
      | some (m2, outs) => some (m2, out :: outs)
      | none => none
    | _ => none

/-- A piece of the standard output of `main`. -/
inductive Line where
  | prompt
  | msg (m : Msg)
  | text (s : String)
  | ship (i : Nat) (states : List String)
  | row (cells : List CellStatus)
  deriving DecidableEq, Repr

/-- The two characters `printField` writes for a cell. -/
def CellStatus.symbol : CellStatus → String
  | CellStatus.Unknown => "? "
  | CellStatus.Empty => ". "
  | CellStatus.Ship => "S "

/-- The characters written for a piece of output. -/
def Line.render : Line → String
  | Line.prompt => "Enter coordinates to attack (x y): "
  | Line.msg m => m.render ++ "\n"
  | Line.text s => s ++ "\n"
  | Line.ship i states =>
    "Ship " ++ toString i ++ ": " ++ "Segments: " ++
      String.join (states.map (fun s => "[" ++ s ++ "] ")) ++ "\n"
  | Line.row cells => String.join (cells.map CellStatus.symbol) ++ "\n"

/-- The loop of `ShipManager::printShips` from index `i` on; each iteration prints the
index and, through `Ship::printSegments`, the state of every segment. -/
def ShipManager.printShipsLoop : List Ship → Nat → List Line
  | [], _ => []
  | ship :: rest, i =>
    Line.ship i (ship.segments.map ShipSegment.getState) ::
      ShipManager.printShipsLoop rest (i + 1)

def ShipManager.printShips (m : ShipManager) : List Line :=
  ShipManager.printShipsLoop m.ships 0

/-! ## `GameField`: copies, printing, call sequences -/

/-- Copy constructor `GameField(const GameField&)`: its initialiser list names `width`,
`height` and `field`; `shipManager` is default-constructed. -/
def GameField.copyCtor (other : GameField) : GameField :=
  { width := other.width, height := other.height, field := other.field,
    shipManager := ShipManager.ctor }

/-- Copy assignment `operator=(const GameField&)` into `self`. -/
def GameField.copyAssign (_self other : GameField) : GameField :=
  { width := other.width, height := other.height, field := other.field,
    shipManager := other.shipManager }

def GameField.printField (g : GameField) : List Line :=
  g.field.map Line.row

/-- A call made on a `GameField` by its user. -/
inductive Call where
  | placeShip (ship : Ship) (x y : Nat)
  | attackCell (x y : Nat)
  deriving DecidableEq, Repr

/-- The field and the output after one call; an exception is caught by the caller, an
undefined call has no outcome. -/
def GameField.call (g : GameField) : Call → Option (GameField × List Msg)
  | Call.placeShip ship x y =>
    match g.placeShip ship x y with
    | Result.ok g1 _ out => some (g1, out)
    | Result.throw g1 _ out => some (g1, out)
    | Result.undefined => none
  | Call.attackCell x y =>
    match g.attackCell x y with
    | Result.ok g1 _ out => some (g1, out)
    | Result.throw g1 _ out => some (g1, out)
    | Result.undefined => none

/-- The field and the accumulated output after a sequence of calls. -/
def GameField.run (g : GameField) : List Call → Option (GameField × List Msg)
  | [] => some (g, [])
  | c :: rest =>
    match g.call c with
    | none => none
    | some (g1, out1) =>
      match GameField.run g1 rest with
      | none => none
      | some (g2, out2) => some (g2, out1 ++ out2)

/-- Number of cells of the matrix with status `Ship`. -/
def countShipCells (field : List (List CellStatus)) : Nat :=
  (field.map (fun row => row.count CellStatus.Ship)).sum

/-- Sum of the lengths of the registered ships. -/
def ShipManager.totalLength (m : ShipManager) : Nat :=
  (m.ships.map Ship.getLength).sum

/-- Number of "Hit" lines in an output. -/
def countHits (out : List Msg) : Nat :=
  out.countP (fun m => match m with | Msg.Hit _ _ => true | _ => false)

/-! ## `main` -/

/-- How a run of `main` ends. -/
inductive MainResult where
  | finished (out : List Line)
  | uncaught (e : Exc) (out : List Line)
  | undefined
  deriving DecidableEq, Repr

/-- The second part of `main`: the prompt, the attack on `field`, then the report printed
from the local `shipManager` and the dump of `field`. An exception leaves `main`. -/
def mainReport (field : GameField) (shipManager : ShipManager) (x y : Nat) : MainResult :=
  match field.attackCell x y with
  | Result.undefined => MainResult.undefined
  | Result.throw _ e out => MainResult.uncaught e (Line.prompt :: out.map Line.msg)
  | Result.ok field1 _ out =>
    MainResult.finished
      (Line.prompt :: out.map Line.msg ++
        [Line.text "State of ships after attack:"] ++ shipManager.printShips ++
        [Line.text "Game field after attack:"] ++ field1.printField)

/-- Function `main` with the two numbers read from standard input as arguments. The
local `shipManager` receives copies of `ship1` and `ship2` and is the one printed. -/
def main (x y : Nat) : MainResult :=
  match GameField.ctor 10 10 with
  | Except.error e => MainResult.uncaught e []
  | Except.ok field =>
    let shipManager := ShipManager.ctor
    let ship1 := Ship.ctor 3 Orientation.Horizontal
    let ship2 := Ship.ctor 2 Orientation.Vertical
    match field.placeShip ship1 2 2 with
    | Result.undefined => MainResult.undefined
    | Result.throw _ e _ => MainResult.uncaught e []
    | Result.ok field1 placed1 _ =>
      if !placed1 then MainResult.uncaught Exc.runtime_error []
      else
        match field1.placeShip ship2 5 5 with
        | Result.undefined => MainResult.undefined
        | Result.throw _ e _ => MainResult.uncaught e []
        | Result.ok field2 placed2 _ =>
          if !placed2 then MainResult.uncaught Exc.runtime_error []
          else mainReport field2 ((shipManager.addShip ship1).addShip ship2) x y

/-! ## Lemmas on `ShipSegment` and `Ship` -/

theorem takeDamage_iterate_intact (n : Nat) :
    (ShipSegment.takeDamage^[n] ShipSegment.ctor).state = State.Destroyed ↔ 2 ≤ n := by
  have h3 : ∀ m : Nat, (ShipSegment.takeDamage^[m] { state := State.Destroyed }) =
      { state := State.Destroyed } := by
    intro m
    induction m with
    | zero => rfl
    | succ m ih => rw [Function.iterate_succ_apply]; exact ih
  match n with
  | 0 => simp [ShipSegment.ctor]
  | 1 => simp [ShipSegment.ctor, ShipSegment.takeDamage]
  | m + 2 =>
    have : ShipSegment.takeDamage^[m + 2] ShipSegment.ctor = { state := State.Destroyed } := by
      rw [Function.iterate_succ_apply, Function.iterate_succ_apply]
      exact h3 m
    simp [this]

theorem isDestroyedLoop_iff (segs : List ShipSegment) :
    Ship.isDestroyedLoop segs = true ↔ ∀ seg ∈ segs, seg.state = State.Destroyed := by
  induction segs with
  | nil => simp [Ship.isDestroyedLoop]
  | cons a rest ih =>
    by_cases ha : a.state = State.Destroyed
    · simp [Ship.isDestroyedLoop, ShipSegment.isDestroyed, ha, ih]
    · simp [Ship.isDestroyedLoop, ShipSegment.isDestroyed, ha]

theorem attackSegment_in_range (s : Ship) (index : Nat) (hwf : s.wf) (h : index < s.length) :
    ∃ seg, s.segments[index]? = some seg ∧
      s.attackSegment index =
        Result.ok { s with segments := s.segments.set index seg.takeDamage } () [] := by
  have hlt : index < s.segments.length := by rw [hwf]; exact h
  refine ⟨s.segments[index], List.getElem?_eq_getElem hlt, ?_⟩
  unfold Ship.attackSegment
  rw [if_neg (Nat.not_le.mpr h), List.getElem?_eq_getElem hlt]

theorem attackSegments_state (idxs : List Nat) :
    ∀ s : Ship, s.wf → (∀ i ∈ idxs, i < s.length) →
      ∃ s1, s.attackSegments idxs = Result.ok s1 () [] ∧ s1.length = s.length ∧
        s1.orientation = s.orientation ∧ s1.segments.length = s.segments.length ∧
        ∀ k, s1.segments[k]? = (s.segments[k]?).map (ShipSegment.takeDamage^[idxs.count k]) := by
  induction idxs with
  | nil =>
    intro s _ _
    exact ⟨s, rfl, rfl, rfl, rfl, fun k => by simp⟩
  | cons a rest ih =>
    intro s hwf hidx
    have ha : a < s.length := hidx a (List.mem_cons_self a rest)
    obtain ⟨seg, hseg, hcall⟩ := attackSegment_in_range s a hwf ha
    have hwf1 : Ship.wf { s with segments := s.segments.set a seg.takeDamage } := by
      simp only [Ship.wf, List.length_set]; exact hwf
    obtain ⟨s1, h1, hlen, hori, hsegs, hk⟩ :=
      ih { s with segments := s.segments.set a seg.takeDamage } hwf1
        (fun i hi => hidx i (List.mem_cons_of_mem a hi))
    refine ⟨s1, ?_, hlen, hori, ?_, ?_⟩
    · simp only [Ship.attackSegments, hcall]; exact h1
    · rw [hsegs]; simp
    · intro k
      rw [hk k]
      by_cases hka : a = k
      · subst hka
        have hlt : a < s.segments.length := by rw [hwf]; exact ha
        simp only [List.getElem?_set_self hlt, hseg, Option.map_some', List.count_cons_self,
          Function.iterate_succ_apply]
      · have hne : (a == k) = false := by simpa using hka
        simp only [List.getElem?_set_ne hka, List.count_cons, hne]
        simp


/-! ## `Ship`: range check, frame and destruction status -/

/-- Claim C10. `attackSegment(index)` throws `out_of_range` exactly when
`index >= length`, leaving the ship as it was; for `index < length` it completes,
replaces the segment at `index` by its `takeDamage` successor and keeps the length,
the orientation, the number of segments and every other segment. -/
theorem Ship_attackSegment_range_and_frame (s : Ship) (index : Nat) (hwf : s.wf) :
    ((∃ s1 out, s.attackSegment index = Result.throw s1 Exc.out_of_range out) ↔
        index ≥ s.length) ∧
    (index ≥ s.length → s.attackSegment index = Result.throw s Exc.out_of_range []) ∧
    (index < s.length →
      ∃ seg s1, s.segments[index]? = some seg ∧
        s.attackSegment index = Result.ok s1 () [] ∧
        s1.segments[index]? = some seg.takeDamage ∧
        s1.length = s.length ∧ s1.orientation = s.orientation ∧
        s1.segments.length = s.segments.length ∧
        ∀ k, k ≠ index → s1.segments[k]? = s.segments[k]?) := by
  have hthrow : index ≥ s.length →
      s.attackSegment index = Result.throw s Exc.out_of_range [] := by
    intro h
    unfold Ship.attackSegment
    rw [if_pos h]
  refine ⟨⟨?_, fun h => ⟨s, [], hthrow h⟩⟩, hthrow, ?_⟩
  · rintro ⟨s1, out, h⟩
    by_contra hlt
    obtain ⟨seg, _, hcall⟩ := attackSegment_in_range s index hwf (Nat.not_le.mp hlt)
    rw [hcall] at h
    cases h
  · intro h
    obtain ⟨seg, hseg, hcall⟩ := attackSegment_in_range s index hwf h
    have hlt : index < s.segments.length := by rw [hwf]; exact h
    refine ⟨seg, _, hseg, hcall, ?_, rfl, rfl, ?_, ?_⟩
    · exact List.getElem?_set_self hlt
    · simp
    · intro k hk
      exact List.getElem?_set_ne (Ne.symm hk)

/-- Instance of C10 on a fresh horizontal ship of length 3, at index 1. -/
theorem Ship_attackSegment_range_and_frame_witness :
    (Ship.ctor 3 Orientation.Horizontal).wf ∧
    (((∃ s1 out, (Ship.ctor 3 Orientation.Horizontal).attackSegment 1 =
          Result.throw s1 Exc.out_of_range out) ↔
        1 ≥ (Ship.ctor 3 Orientation.Horizontal).length) ∧
    (1 ≥ (Ship.ctor 3 Orientation.Horizontal).length →
      (Ship.ctor 3 Orientation.Horizontal).attackSegment 1 =
        Result.throw (Ship.ctor 3 Orientation.Horizontal) Exc.out_of_range []) ∧
    (1 < (Ship.ctor 3 Orientation.Horizontal).length →
      ∃ seg s1, (Ship.ctor 3 Orientation.Horizontal).segments[1]? = some seg ∧
        (Ship.ctor 3 Orientation.Horizontal).attackSegment 1 = Result.ok s1 () [] ∧
        s1.segments[1]? = some seg.takeDamage ∧
        s1.length = (Ship.ctor 3 Orientation.Horizontal).length ∧
        s1.orientation = (Ship.ctor 3 Orientation.Horizontal).orientation ∧
        s1.segments.length = (Ship.ctor 3 Orientation.Horizontal).segments.length ∧
        ∀ k, k ≠ 1 → s1.segments[k]? = (Ship.ctor 3 Orientation.Horizontal).segments[k]?)) :=
  ⟨by decide, Ship_attackSegment_range_and_frame (Ship.ctor 3 Orientation.Horizontal) 1
    (by decide)⟩

/-- Claim C9. A freshly constructed ship of positive length `L` is not destroyed;
after any sequence of in-range `attackSegment` calls (all of which complete) it is
destroyed exactly when every index below `L` occurs at least twice in the sequence,
which is exactly when every segment is `Destroyed`; in particular it is destroyed
when every index occurs exactly twice, in whatever order. -/
theorem Ship_isDestroyed_iff_each_segment_attacked_twice (L : Nat) (ori : Orientation)
    (hL : 0 < L) (idxs : List Nat) (hidx : ∀ i ∈ idxs, i < L) :
    (Ship.ctor L ori).isDestroyed = false ∧
    ∃ s1, (Ship.ctor L ori).attackSegments idxs = Result.ok s1 () [] ∧
      (s1.isDestroyed = true ↔ ∀ i, i < L → 2 ≤ idxs.count i) ∧
      (s1.isDestroyed = true ↔ ∀ seg ∈ s1.segments, seg.state = State.Destroyed) ∧
      ((∀ i, i < L → idxs.count i = 2) → s1.isDestroyed = true) := by
  have hfresh : (Ship.ctor L ori).isDestroyed = false := by
    obtain ⟨m, rfl⟩ : ∃ m, L = m + 1 := ⟨L - 1, by omega⟩
    simp [Ship.ctor, Ship.isDestroyed, List.replicate_succ, Ship.isDestroyedLoop,
      ShipSegment.isDestroyed, ShipSegment.ctor]
  have hwf : (Ship.ctor L ori).wf := by simp [Ship.wf, Ship.ctor]
  obtain ⟨s1, hrun, _, _, hlen, hk⟩ := attackSegments_state idxs (Ship.ctor L ori) hwf hidx
  have hlen1 : s1.segments.length = L := by rw [hlen]; simp [Ship.ctor]
  have hcount : s1.isDestroyed = true ↔ ∀ i, i < L → 2 ≤ idxs.count i := by
    unfold Ship.isDestroyed
    rw [isDestroyedLoop_iff]
    constructor
    · intro hall i hi
      have hi1 : i < s1.segments.length := by rw [hlen1]; exact hi
      have hmem := hall _ (List.getElem_mem hi1)
      have hki := hk i
      rw [List.getElem?_eq_getElem hi1] at hki
      simp only [Ship.ctor, List.getElem?_replicate_of_lt hi, Option.map_some',
        Option.some.injEq] at hki
      rw [hki] at hmem
      exact (takeDamage_iterate_intact _).mp hmem
    · intro hall seg hseg
      obtain ⟨i, hi1, rfl⟩ := List.getElem_of_mem hseg
      have hi : i < L := by rw [← hlen1]; exact hi1
      have hki := hk i
      rw [List.getElem?_eq_getElem hi1] at hki
      simp only [Ship.ctor, List.getElem?_replicate_of_lt hi, Option.map_some',
        Option.some.injEq] at hki
      rw [hki]
      exact (takeDamage_iterate_intact _).mpr (hall i hi)
  refine ⟨hfresh, s1, hrun, hcount, ?_, ?_⟩
  · unfold Ship.isDestroyed
    exact isDestroyedLoop_iff _
  · intro h
    exact hcount.mpr (fun i hi => by rw [h i hi])

/-- Instance of C9: a ship of length 2 attacked in the order 0, 1, 1, 0. -/
theorem Ship_isDestroyed_iff_each_segment_attacked_twice_witness :
    (0 < 2 ∧ ∀ i ∈ [0, 1, 1, 0], i < 2) ∧
    ((Ship.ctor 2 Orientation.Vertical).isDestroyed = false ∧
    ∃ s1, (Ship.ctor 2 Orientation.Vertical).attackSegments [0, 1, 1, 0] =
        Result.ok s1 () [] ∧
      (s1.isDestroyed = true ↔ ∀ i, i < 2 → 2 ≤ [0, 1, 1, 0].count i) ∧
      (s1.isDestroyed = true ↔ ∀ seg ∈ s1.segments, seg.state = State.Destroyed) ∧
      ((∀ i, i < 2 → [0, 1, 1, 0].count i = 2) → s1.isDestroyed = true)) :=
  ⟨⟨by decide, by decide⟩,
    Ship_isDestroyed_iff_each_segment_attacked_twice 2 Orientation.Vertical (by decide)
      [0, 1, 1, 0] (by decide)⟩


/-! ## `GameField`: construction and the range check of `attackCell` -/

/-- Claim C7. With `x >= width` or `y >= height`, `attackCell` throws `out_of_range`;
the field object (cells and registered ships) is as before and nothing is printed. -/
theorem GameField_attackCell_out_of_range (g : GameField) (x y : Nat)
    (h : x ≥ g.width ∨ y ≥ g.height) :
    g.attackCell x y = Result.throw g Exc.out_of_range [] := by
  unfold GameField.attackCell
  rw [if_pos h]


/-- Instance of C7: an attack at column 10 of a 10 by 10 field. -/
theorem GameField_attackCell_out_of_range_witness :
    ((10 : Nat) ≥ (GameField.mk 10 10
        (List.replicate 10 (List.replicate 10 CellStatus.Unknown)) ShipManager.ctor).width ∨
      (3 : Nat) ≥ (GameField.mk 10 10
        (List.replicate 10 (List.replicate 10 CellStatus.Unknown)) ShipManager.ctor).height) ∧
    (GameField.mk 10 10
        (List.replicate 10 (List.replicate 10 CellStatus.Unknown)) ShipManager.ctor).attackCell
        10 3 =
      Result.throw (GameField.mk 10 10
        (List.replicate 10 (List.replicate 10 CellStatus.Unknown)) ShipManager.ctor)
        Exc.out_of_range [] :=
  ⟨by decide, GameField_attackCell_out_of_range _ 10 3 (by decide)⟩

/-! ## Cell access -/

theorem readCell_eq_some {field : List (List CellStatus)} {tx ty : Nat} {c : CellStatus}
    (h : readCell field tx ty = some c) :
    ∃ row, field[ty]? = some row ∧ row[tx]? = some c ∧ row ∈ field ∧ tx < row.length := by
  unfold readCell at h
  cases hrow : field[ty]? with
  | none => rw [hrow] at h; cases h
  | some row =>
    rw [hrow] at h
    obtain ⟨hlt, _⟩ := List.getElem?_eq_some.mp h
    obtain ⟨hty, hget⟩ := List.getElem?_eq_some.mp hrow
    exact ⟨row, rfl, h, hget ▸ List.getElem_mem hty, hlt⟩

theorem writeCell_eq_some {field field1 : List (List CellStatus)} {tx ty : Nat}
    {c : CellStatus} (h : writeCell field tx ty c = some field1) :
    ∃ row, field[ty]? = some row ∧ tx < row.length ∧ field1 = field.set ty (row.set tx c) := by
  unfold writeCell at h
  cases hrow : field[ty]? with
  | none => rw [hrow] at h; cases h
  | some row =>
    rw [hrow] at h
    by_cases hlt : tx < row.length
    · simp only [if_pos hlt, Option.some.injEq] at h
      exact ⟨row, rfl, hlt, h.symm⟩
    · simp only [if_neg hlt] at h
      cases h

theorem readCell_writeCell_same {field field1 : List (List CellStatus)} {tx ty : Nat}
    {c : CellStatus} (h : writeCell field tx ty c = some field1) :
    readCell field1 tx ty = some c := by
  obtain ⟨row, hrow, hlt, rfl⟩ := writeCell_eq_some h
  obtain ⟨hty, _⟩ := List.getElem?_eq_some.mp hrow
  unfold readCell
  rw [List.getElem?_set_self hty]
  exact List.getElem?_set_self hlt

theorem readCell_writeCell_other {field field1 : List (List CellStatus)} {tx ty : Nat}
    {c : CellStatus} (h : writeCell field tx ty c = some field1) (cx cy : Nat)
    (hne : ¬ (cx = tx ∧ cy = ty)) :
    readCell field1 cx cy = readCell field cx cy := by
  obtain ⟨row, hrow, hlt, rfl⟩ := writeCell_eq_some h
  obtain ⟨hty, _⟩ := List.getElem?_eq_some.mp hrow
  unfold readCell
  by_cases hy : ty = cy
  · subst hy
    have hx : tx ≠ cx := fun hx => hne ⟨hx.symm, rfl⟩
    rw [List.getElem?_set_self hty, hrow]
    exact List.getElem?_set_ne hx
  · rw [List.getElem?_set_ne hy]

theorem writeCell_of_readCell {field : List (List CellStatus)} {tx ty : Nat}
    {c : CellStatus} (h : readCell field tx ty = some c) (d : CellStatus) :
    ∃ field1, writeCell field tx ty d = some field1 := by
  obtain ⟨row, hrow, _, _, hlt⟩ := readCell_eq_some h
  exact ⟨field.set ty (row.set tx d), by simp only [writeCell, hrow, if_pos hlt]⟩


theorem readCell_in_grid (g : GameField) (hwf : g.wf) (tx ty : Nat) (hx : tx < g.width)
    (hy : ty < g.height) : ∃ c, readCell g.field tx ty = some c := by
  obtain ⟨_, _, hrows, hcols⟩ := hwf
  have hty : ty < g.field.length := by rw [hrows]; exact hy
  have hmem : g.field[ty] ∈ g.field := List.getElem_mem hty
  have htx : tx < (g.field[ty]).length := by rw [hcols _ hmem]; exact hx
  refine ⟨(g.field[ty])[tx], ?_⟩
  unfold readCell
  rw [List.getElem?_eq_getElem hty]
  exact List.getElem?_eq_getElem htx

/-! ## The loops of `placeShip` -/

theorem collisionLoop_free {field : List (List CellStatus)} {ori : Orientation} {x y : Nat} :
    ∀ (n i : Nat), collisionLoop field ori x y n i = Collision.free →
      ∀ k, k < n →
        readCell field (targetX ori x (i + k)) (targetY ori y (i + k)) =
          some CellStatus.Unknown := by
  intro n
  induction n with
  | zero => intro i _ k hk; omega
  | succ n ih =>
    intro i h k hk
    unfold collisionLoop at h
    cases hr : readCell field (targetX ori x i) (targetY ori y i) with
    | none => rw [hr] at h; cases h
    | some c =>
      rw [hr] at h
      by_cases hc : c = CellStatus.Unknown
      · subst hc
        simp only [ne_eq, not_true_eq_false, if_false] at h
        cases k with
        | zero => exact hr
        | succ k =>
          have := ih (i + 1) h k (by omega)
          rw [show i + (k + 1) = i + 1 + k by omega]
          exact this
      · simp only [ne_eq, hc, not_false_eq_true, if_true] at h
        cases h

theorem collisionLoop_occupied {field : List (List CellStatus)} {ori : Orientation}
    {x y : Nat} :
    ∀ (k n i : Nat), k < n →
      (∀ j, j ≤ k → ∃ c, readCell field (targetX ori x (i + j)) (targetY ori y (i + j)) = some c) →
      readCell field (targetX ori x (i + k)) (targetY ori y (i + k)) ≠
        some CellStatus.Unknown →
      collisionLoop field ori x y n i = Collision.occupied := by
  intro k
  induction k with
  | zero =>
    intro n i hn hread hne
    obtain ⟨m, rfl⟩ : ∃ m, n = m + 1 := ⟨n - 1, by omega⟩
    obtain ⟨c, hc⟩ := hread 0 (Nat.le_refl 0)
    rw [Nat.add_zero] at hc hne
    have hcu : c ≠ CellStatus.Unknown := fun hcu => hne (by rw [hc, hcu])
    rw [collisionLoop, hc]
    simp [hcu]
  | succ k ih =>
    intro n i hn hread hne
    obtain ⟨m, rfl⟩ : ∃ m, n = m + 1 := ⟨n - 1, by omega⟩
    obtain ⟨c, hc⟩ := hread 0 (by omega)
    rw [Nat.add_zero] at hc
    have hshift : ∀ j, i + (j + 1) = i + 1 + j := fun j => by omega
    by_cases hcu : c = CellStatus.Unknown
    · rw [collisionLoop, hc]
      simp only [hcu, ne_eq, not_true_eq_false, if_false]
      apply ih m (i + 1) (by omega)
      · intro j hj
        rw [← hshift j]
        exact hread (j + 1) (by omega)
      · rw [← hshift k]
        exact hne
    · rw [collisionLoop, hc]
      simp [hcu]

theorem markLoop_spec {ori : Orientation} {x y : Nat} :
    ∀ (n i : Nat) (field field1 : List (List CellStatus)),
      markLoop field ori x y n i = some field1 →
      (∀ k, k < n →
        readCell field1 (targetX ori x (i + k)) (targetY ori y (i + k)) =
          some CellStatus.Ship) ∧
      (∀ cx cy, (∀ k, k < n → ¬ (cx = targetX ori x (i + k) ∧ cy = targetY ori y (i + k))) →
        readCell field1 cx cy = readCell field cx cy) := by
  intro n
  induction n with
  | zero =>
    intro i field field1 h
    simp only [markLoop, Option.some.injEq] at h
    subst h
    exact ⟨fun k hk => by omega, fun _ _ _ => rfl⟩
  | succ n ih =>
    intro i field field1 h
    unfold markLoop at h
    cases hw : writeCell field (targetX ori x i) (targetY ori y i) CellStatus.Ship with
    | none => rw [hw] at h; cases h
    | some field0 =>
      rw [hw] at h
      obtain ⟨hin, hout⟩ := ih (i + 1) field0 field1 h
      have hshift : ∀ k, i + (k + 1) = i + 1 + k := fun k => by omega
      constructor
      · intro k hk
        cases k with
        | zero =>
          by_cases hlater : ∀ k, k < n →
              ¬ (targetX ori x (i + 0) = targetX ori x (i + 1 + k) ∧
                 targetY ori y (i + 0) = targetY ori y (i + 1 + k))
          · rw [hout _ _ hlater]
            exact readCell_writeCell_same hw
          · push_neg at hlater
            obtain ⟨k, hk1, hxk, hyk⟩ := hlater
            rw [hxk, hyk]
            exact hin k hk1
        | succ k =>
          rw [hshift k]
          exact hin k (by omega)
      · intro cx cy hnot
        have h0 : ¬ (cx = targetX ori x i ∧ cy = targetY ori y i) := hnot 0 (by omega)
        rw [hout cx cy (fun k hk => by rw [← hshift k]; exact hnot (k + 1) (by omega))]
        exact readCell_writeCell_other hw cx cy h0

theorem markLoop_of_readable {ori : Orientation} {x y : Nat} :
    ∀ (n i : Nat) (field : List (List CellStatus)),
      (∀ k, k < n → ∃ c, readCell field (targetX ori x (i + k)) (targetY ori y (i + k)) = some c) →
      ∃ field1, markLoop field ori x y n i = some field1 := by
  intro n
  induction n with
  | zero => intro i field _; exact ⟨field, rfl⟩
  | succ n ih =>
    intro i field h
    obtain ⟨c, hc⟩ := h 0 (by omega)
    rw [Nat.add_zero] at hc
    obtain ⟨field0, hw⟩ := writeCell_of_readCell hc CellStatus.Ship
    have hnext : ∀ k, k < n →
        ∃ c, readCell field0 (targetX ori x (i + 1 + k)) (targetY ori y (i + 1 + k)) = some c := by
      intro k hk
      obtain ⟨c1, hc1⟩ := h (k + 1) (by omega)
      rw [show i + (k + 1) = i + 1 + k by omega] at hc1
      by_cases hsame : targetX ori x (i + 1 + k) = targetX ori x i ∧
          targetY ori y (i + 1 + k) = targetY ori y i
      · rw [hsame.1, hsame.2]
        exact ⟨_, readCell_writeCell_same hw⟩
      · rw [readCell_writeCell_other hw _ _ hsame]
        exact ⟨c1, hc1⟩
    obtain ⟨field1, h1⟩ := ih (i + 1) field0 hnext
    refine ⟨field1, ?_⟩
    unfold markLoop
    rw [hw]
    exact h1

/-- Offsets that stay inside a vector shorter than `2^64` do not wrap around. -/
theorem no_wrap_of_in_bounds (a bound n : Nat) (ha : a < SIZE_RANGE)
    (hbound : bound < SIZE_RANGE) (h : ∀ k, k < n → wrap (a + k) < bound) :
    ∀ k, k < n → wrap (a + k) = a + k ∧ a + k < bound := by
  intro k
  induction k with
  | zero =>
    intro hk
    have h0 := h 0 hk
    have hw : wrap (a + 0) = a + 0 := Nat.mod_eq_of_lt (by simpa using ha)
    exact ⟨hw, hw ▸ h0⟩
  | succ k ih =>
    intro hk
    obtain ⟨_, hlt⟩ := ih (by omega)
    have hw : wrap (a + (k + 1)) = a + (k + 1) := Nat.mod_eq_of_lt (by omega)
    exact ⟨hw, hw ▸ h (k + 1) hk⟩


theorem footprint_no_wrap (g : GameField) (hwf : g.wf) (ori : Orientation) (x y n : Nat)
    (hx : x < SIZE_RANGE) (hy : y < SIZE_RANGE)
    (h : ∀ k, k < n → ∃ c, readCell g.field (targetX ori x k) (targetY ori y k) = some c) :
    ∀ k, k < n →
      targetX ori x k = (if ori = Orientation.Horizontal then x + k else x) ∧
      targetY ori y k = (if ori = Orientation.Vertical then y + k else y) := by
  obtain ⟨hw, hh, hrows, hcols⟩ := hwf
  cases ori with
  | Horizontal =>
    have hb : ∀ k, k < n → wrap (x + k) < g.width := by
      intro k hk
      obtain ⟨c, hc⟩ := h k hk
      obtain ⟨row, _, _, hmem, hlt⟩ := readCell_eq_some hc
      rw [hcols row hmem] at hlt
      simpa [targetX] using hlt
    intro k hk
    have := (no_wrap_of_in_bounds x g.width n hx hw hb k hk).1
    simp [targetX, targetY, this]
  | Vertical =>
    have hb : ∀ k, k < n → wrap (y + k) < g.height := by
      intro k hk
      obtain ⟨c, hc⟩ := h k hk
      obtain ⟨row, hrow, _, _, _⟩ := readCell_eq_some hc
      obtain ⟨hlt, _⟩ := List.getElem?_eq_some.mp hrow
      rw [hrows] at hlt
      simpa [targetY] using hlt
    intro k hk
    have := (no_wrap_of_in_bounds y g.height n hy hh hb k hk).1
    simp [targetX, targetY, this]

theorem placeShip_true_inv {g g1 : GameField} {ship : Ship} {x y : Nat} {out : List Msg}
    (h : g.placeShip ship x y = Result.ok g1 true out) :
    collisionLoop g.field ship.orientation x y ship.length 0 = Collision.free ∧
    ∃ field1, markLoop g.field ship.orientation x y ship.length 0 = some field1 ∧
      g1 = { g with field := field1, shipManager := g.shipManager.addShip ship } ∧
      out = [] := by
  unfold GameField.placeShip at h
  simp only [Ship.getLength, Ship.getOrientation] at h
  split at h
  · cases h
  · split at h
    · cases h
    · cases h
    · rename_i hfree
      split at h
      · cases h
      · rename_i field1 hmark
        simp only [Result.ok.injEq, and_true, true_and] at h
        exact ⟨hfree, field1, hmark, h.1.symm, h.2.symm⟩

theorem placeShip_false_inv {g g1 : GameField} {ship : Ship} {x y : Nat} {out : List Msg}
    (h : g.placeShip ship x y = Result.ok g1 false out) : g1 = g ∧ out = [] := by
  unfold GameField.placeShip at h
  simp only [Ship.getLength, Ship.getOrientation] at h
  split at h
  · simp only [Result.ok.injEq, and_true, true_and] at h
    exact ⟨h.1.symm, h.2.symm⟩
  · split at h
    · cases h
    · simp only [Result.ok.injEq, and_true, true_and] at h
      exact ⟨h.1.symm, h.2.symm⟩
    · split at h
      · cases h
      · cases h

/-! ## `placeShip`: failure leaves the field alone, success marks the footprint -/

/-- Claim C5. Whenever `placeShip` returns false (extent beyond the grid, or a footprint
cell that is not `Unknown`), the whole field object (every cell status and the registry)
is exactly as before the call. In particular, when a cell of the footprint lies in the
grid and is not `Unknown`, as when the footprint overlaps an earlier ship, the call
returns false, leaves the field unchanged and marks no part of the footprint. -/
theorem GameField_placeShip_false_unchanged (g : GameField) (ship : Ship) (x y : Nat) :
    (∀ g1 out, g.placeShip ship x y = Result.ok g1 false out →
      g1 = g ∧ g1.field = g.field ∧ g1.shipManager = g.shipManager ∧ out = []) ∧
    (g.wf → ∀ k, k < ship.length →
      (if ship.orientation = Orientation.Horizontal then x + k else x) < g.width →
      (if ship.orientation = Orientation.Vertical then y + k else y) < g.height →
      readCell g.field (if ship.orientation = Orientation.Horizontal then x + k else x)
        (if ship.orientation = Orientation.Vertical then y + k else y) ≠
        some CellStatus.Unknown →
      g.placeShip ship x y = Result.ok g false []) := by
  constructor
  · intro g1 out h
    obtain ⟨hg, hout⟩ := placeShip_false_inv h
    subst hg
    exact ⟨rfl, rfl, rfl, hout⟩
  · intro hwf k hk hcx hcy hne
    have hw := hwf.1
    have hh := hwf.2.1
    have htx : ∀ j, j ≤ k → targetX ship.orientation x j =
        (if ship.orientation = Orientation.Horizontal then x + j else x) := by
      intro j hj
      unfold targetX
      by_cases ho : ship.orientation = Orientation.Horizontal
      · rw [if_pos ho] at hcx
        rw [show wrap (x + j) = x + j from Nat.mod_eq_of_lt (by omega)]
      · rw [if_neg ho, if_neg ho]
    have hty : ∀ j, j ≤ k → targetY ship.orientation y j =
        (if ship.orientation = Orientation.Vertical then y + j else y) := by
      intro j hj
      unfold targetY
      by_cases ho : ship.orientation = Orientation.Vertical
      · rw [if_pos ho] at hcy
        rw [show wrap (y + j) = y + j from Nat.mod_eq_of_lt (by omega)]
      · rw [if_neg ho, if_neg ho]
    have hread : ∀ j, j ≤ k →
        ∃ c, readCell g.field (targetX ship.orientation x (0 + j))
          (targetY ship.orientation y (0 + j)) = some c := by
      intro j hj
      rw [Nat.zero_add, htx j hj, hty j hj]
      apply readCell_in_grid g hwf
      · by_cases ho : ship.orientation = Orientation.Horizontal
        · rw [if_pos ho] at hcx ⊢; omega
        · rw [if_neg ho] at hcx ⊢; exact hcx
      · by_cases ho : ship.orientation = Orientation.Vertical
        · rw [if_pos ho] at hcy ⊢; omega
        · rw [if_neg ho] at hcy ⊢; exact hcy
    have hocc : collisionLoop g.field ship.orientation x y ship.length 0 =
        Collision.occupied := by
      apply collisionLoop_occupied k ship.length 0 hk hread
      rw [Nat.zero_add, htx k (Nat.le_refl k), hty k (Nat.le_refl k)]
      exact hne
    unfold GameField.placeShip
    simp only [Ship.getLength, Ship.getOrientation]
    split
    · rfl
    · rw [hocc]

/-- Instance of C5: on the field of `main`, a vertical ship of length 2 at (3,1) overlaps
the first ship at (3,2), its footprint cell 1; the call returns false and the field is
unchanged, cell (3,1) included. -/
theorem GameField_placeShip_false_unchanged_witness :
    ∃ g : GameField, mainField = some g ∧ g.wf ∧
      (1 < (Ship.ctor 2 Orientation.Vertical).length ∧
        readCell g.field 3 (1 + 1) ≠ some CellStatus.Unknown) ∧
      readCell g.field 3 1 = some CellStatus.Unknown ∧
      g.placeShip (Ship.ctor 2 Orientation.Vertical) 3 1 = Result.ok g false [] ∧
      (g = g ∧ g.field = g.field ∧ g.shipManager = g.shipManager ∧ ([] : List Msg) = []) :=
  ⟨_, rfl, by decide, by decide, rfl,
    (GameField_placeShip_false_unchanged _ (Ship.ctor 2 Orientation.Vertical) 3 1).2
      (by decide) 1 (by decide) (by decide) (by decide) (by decide),
    (GameField_placeShip_false_unchanged _ (Ship.ctor 2 Orientation.Vertical) 3 1).1 _ []
      rfl⟩

/-- Claim C6. Whenever `placeShip(ship, x, y)` returns true, each footprint cell
`(x+i, y)` (Horizontal) or `(x, y+i)` (Vertical), `i < length`, has status `Ship`, every
other cell reads as before, the registry is the old one with `ship` appended, and width
and height are unchanged. -/
theorem GameField_placeShip_true_post (g g1 : GameField) (ship : Ship) (x y : Nat)
    (out : List Msg) (hwf : g.wf) (hx : x < SIZE_RANGE) (hy : y < SIZE_RANGE)
    (h : g.placeShip ship x y = Result.ok g1 true out) :
    (∀ i, i < ship.length →
      readCell g1.field (if ship.orientation = Orientation.Horizontal then x + i else x)
        (if ship.orientation = Orientation.Vertical then y + i else y) =
        some CellStatus.Ship) ∧
    (∀ cx cy,
      (∀ i, i < ship.length →
        ¬ (cx = (if ship.orientation = Orientation.Horizontal then x + i else x) ∧
           cy = (if ship.orientation = Orientation.Vertical then y + i else y))) →
      readCell g1.field cx cy = readCell g.field cx cy) ∧
    g1.shipManager.ships = g.shipManager.ships ++ [ship] ∧
    g1.width = g.width ∧ g1.height = g.height ∧ out = [] := by
  obtain ⟨hfree, field1, hmark, hg1, hout⟩ := placeShip_true_inv h
  have hread := collisionLoop_free ship.length 0 hfree
  have hcoord := footprint_no_wrap g hwf ship.orientation x y ship.length hx hy
    (fun k hk => ⟨_, by simpa using hread k hk⟩)
  obtain ⟨hin, hother⟩ := markLoop_spec ship.length 0 g.field field1 hmark
  subst hg1
  refine ⟨?_, ?_, rfl, rfl, rfl, hout⟩
  · intro i hi
    have := hin i hi
    rw [Nat.zero_add, (hcoord i hi).1, (hcoord i hi).2] at this
    exact this
  · intro cx cy hnot
    apply hother
    intro k hk
    rw [Nat.zero_add, (hcoord k hk).1, (hcoord k hk).2]
    exact hnot k hk

/-- Instance of C6: the first placement of `main`, a horizontal ship of length 3 at (2,2)
on the fresh 10 by 10 field. -/
theorem GameField_placeShip_true_post_witness :
    ∃ g g1 : GameField, GameField.ctor 10 10 = Except.ok g ∧
      g.placeShip (Ship.ctor 3 Orientation.Horizontal) 2 2 = Result.ok g1 true [] ∧
      ((∀ i, i < (Ship.ctor 3 Orientation.Horizontal).length →
        readCell g1.field
          (if (Ship.ctor 3 Orientation.Horizontal).orientation = Orientation.Horizontal
            then 2 + i else 2)
          (if (Ship.ctor 3 Orientation.Horizontal).orientation = Orientation.Vertical
            then 2 + i else 2) = some CellStatus.Ship) ∧
      (∀ cx cy,
        (∀ i, i < (Ship.ctor 3 Orientation.Horizontal).length →
          ¬ (cx = (if (Ship.ctor 3 Orientation.Horizontal).orientation =
                Orientation.Horizontal then 2 + i else 2) ∧
             cy = (if (Ship.ctor 3 Orientation.Horizontal).orientation =
                Orientation.Vertical then 2 + i else 2))) →
        readCell g1.field cx cy = readCell g.field cx cy) ∧
      g1.shipManager.ships = g.shipManager.ships ++ [Ship.ctor 3 Orientation.Horizontal] ∧
      g1.width = g.width ∧ g1.height = g.height ∧ ([] : List Msg) = []) :=
  ⟨_, _, rfl, rfl,
    GameField_placeShip_true_post _ _ (Ship.ctor 3 Orientation.Horizontal) 2 2 []
      (by decide) (by decide) (by decide) rfl⟩


/-! ## `placeShip` on anchors inside the grid -/

theorem collisionLoop_of_readable {field : List (List CellStatus)} {ori : Orientation}
    {x y : Nat} :
    ∀ (n i : Nat),
      (∀ k, k < n → ∃ c, readCell field (targetX ori x (i + k)) (targetY ori y (i + k)) = some c) →
      (collisionLoop field ori x y n i = Collision.free ∧
        ∀ k, k < n → readCell field (targetX ori x (i + k)) (targetY ori y (i + k)) =
          some CellStatus.Unknown) ∨
      (collisionLoop field ori x y n i = Collision.occupied ∧
        ∃ k, k < n ∧ readCell field (targetX ori x (i + k)) (targetY ori y (i + k)) ≠
          some CellStatus.Unknown) := by
  intro n
  induction n with
  | zero => intro i _; exact Or.inl ⟨rfl, fun k hk => by omega⟩
  | succ n ih =>
    intro i h
    obtain ⟨c, hc⟩ := h 0 (by omega)
    rw [Nat.add_zero] at hc
    have hshift : ∀ k, i + (k + 1) = i + 1 + k := fun k => by omega
    by_cases hcu : c = CellStatus.Unknown
    · subst hcu
      have hstep : collisionLoop field ori x y (n + 1) i =
          collisionLoop field ori x y n (i + 1) := by
        rw [collisionLoop, hc]
        simp
      rcases ih (i + 1) (fun k hk => by rw [← hshift k]; exact h (k + 1) (by omega)) with
        ⟨hfree, hall⟩ | ⟨hocc, k, hk, hne⟩
      · refine Or.inl ⟨hstep.trans hfree, ?_⟩
        intro k hk
        cases k with
        | zero => exact hc
        | succ k => rw [hshift k]; exact hall k (by omega)
      · exact Or.inr ⟨hstep.trans hocc, k + 1, by omega, by rw [hshift k]; exact hne⟩
    · refine Or.inr ⟨?_, 0, by omega, ?_⟩
      · rw [collisionLoop, hc]
        simp [hcu]
      · rw [Nat.add_zero, hc]
        simpa using hcu

/-- For an anchor inside the grid and a length that does not overflow, `placeShip`
returns false exactly when the extent exceeds the grid or a footprint cell is not
`Unknown`, and true otherwise. -/
theorem placeShip_result_in_grid (g : GameField) (hwf : g.wf) (ship : Ship) (x y : Nat)
    (hx : x < g.width) (hy : y < g.height)
    (hxl : x + ship.length < SIZE_RANGE) (hyl : y + ship.length < SIZE_RANGE) :
    (((ship.orientation = Orientation.Horizontal ∧ x + ship.length > g.width) ∨
      (ship.orientation = Orientation.Vertical ∧ y + ship.length > g.height) ∨
      ∃ i, i < ship.length ∧
        readCell g.field (if ship.orientation = Orientation.Horizontal then x + i else x)
          (if ship.orientation = Orientation.Vertical then y + i else y) ≠
          some CellStatus.Unknown) →
      g.placeShip ship x y = Result.ok g false []) ∧
    (¬ ((ship.orientation = Orientation.Horizontal ∧ x + ship.length > g.width) ∨
      (ship.orientation = Orientation.Vertical ∧ y + ship.length > g.height) ∨
      ∃ i, i < ship.length ∧
        readCell g.field (if ship.orientation = Orientation.Horizontal then x + i else x)
          (if ship.orientation = Orientation.Vertical then y + i else y) ≠
          some CellStatus.Unknown) →
      ∃ g1, g.placeShip ship x y = Result.ok g1 true []) := by
  have hwx : wrap (x + ship.length) = x + ship.length := Nat.mod_eq_of_lt hxl
  have hwy : wrap (y + ship.length) = y + ship.length := Nat.mod_eq_of_lt hyl
  have htx : ∀ i, i < ship.length → targetX ship.orientation x i =
      (if ship.orientation = Orientation.Horizontal then x + i else x) := by
    intro i hi
    unfold targetX
    rw [show wrap (x + i) = x + i from Nat.mod_eq_of_lt (by omega)]
  have hty : ∀ i, i < ship.length → targetY ship.orientation y i =
      (if ship.orientation = Orientation.Vertical then y + i else y) := by
    intro i hi
    unfold targetY
    rw [show wrap (y + i) = y + i from Nat.mod_eq_of_lt (by omega)]
  by_cases hext : (ship.orientation = Orientation.Horizontal ∧ x + ship.length > g.width) ∨
      (ship.orientation = Orientation.Vertical ∧ y + ship.length > g.height)
  · have hcall : g.placeShip ship x y = Result.ok g false [] := by
      unfold GameField.placeShip
      simp only [Ship.getLength, Ship.getOrientation, hwx, hwy]
      rw [if_pos hext]
    refine ⟨fun _ => hcall, fun hn => absurd ?_ hn⟩
    rcases hext with h | h
    · exact Or.inl h
    · exact Or.inr (Or.inl h)
  · have hreadable : ∀ k, k < ship.length →
        ∃ c, readCell g.field (targetX ship.orientation x (0 + k))
          (targetY ship.orientation y (0 + k)) = some c := by
      intro k hk
      rw [Nat.zero_add, htx k hk, hty k hk]
      apply readCell_in_grid g hwf
      · by_cases ho : ship.orientation = Orientation.Horizontal
        · have : ¬ (x + ship.length > g.width) := fun hgt => hext (Or.inl ⟨ho, hgt⟩)
          rw [if_pos ho]; omega
        · rw [if_neg ho]; exact hx
      · by_cases ho : ship.orientation = Orientation.Vertical
        · have : ¬ (y + ship.length > g.height) := fun hgt => hext (Or.inr ⟨ho, hgt⟩)
          rw [if_pos ho]; omega
        · rw [if_neg ho]; exact hy
    rcases collisionLoop_of_readable ship.length 0 hreadable with ⟨hfree, hall⟩ | ⟨hocc, k, hk, hne⟩
    · obtain ⟨field1, hmark⟩ := markLoop_of_readable ship.length 0 g.field hreadable
      have hcall : g.placeShip ship x y = Result.ok
          { g with field := field1, shipManager := g.shipManager.addShip ship } true [] := by
        unfold GameField.placeShip
        simp only [Ship.getLength, Ship.getOrientation, hwx, hwy]
        rw [if_neg hext, hfree]
        simp only [hmark]
      constructor
      · rintro (h | h | ⟨i, hi, hne⟩)
        · exact absurd (Or.inl h) hext
        · exact absurd (Or.inr h) hext
        · have := hall i hi
          rw [Nat.zero_add, htx i hi, hty i hi] at this
          exact absurd this hne
      · intro _
        exact ⟨_, hcall⟩
    · have hcall : g.placeShip ship x y = Result.ok g false [] := by
        unfold GameField.placeShip
        simp only [Ship.getLength, Ship.getOrientation, hwx, hwy]
        rw [if_neg hext, hocc]
      refine ⟨fun _ => hcall, fun hn => absurd ?_ hn⟩
      rw [Nat.zero_add, htx k hk, hty k hk] at hne
      exact Or.inr (Or.inr ⟨k, hk, hne⟩)

/-! ## The scenario of `main` under attack -/

/-- Claim C1. On a fresh 10 by 10 field, placing a horizontal ship of length 3 at (2,2)
and then a vertical ship of length 2 at (5,5) both return true; `attackCell(2,2)` then
prints "Hit on ship 0, segment 0" and cell (2,2) is `Empty` afterwards. -/
theorem scenario_first_attack_hits_ship_0_segment_0 :
    ∃ f0 f1 f2 g : GameField,
      GameField.ctor 10 10 = Except.ok f0 ∧
      f0.placeShip (Ship.ctor 3 Orientation.Horizontal) 2 2 = Result.ok f1 true [] ∧
      f1.placeShip (Ship.ctor 2 Orientation.Vertical) 5 5 = Result.ok f2 true [] ∧
      f2.attackCell 2 2 = Result.ok g () [Msg.Hit 0 0] ∧
      (Msg.Hit 0 0).render = "Hit on ship 0, segment 0" ∧
      readCell f2.field 2 2 = some CellStatus.Ship ∧
      readCell g.field 2 2 = some CellStatus.Empty :=
  ⟨_, _, _, _, rfl, rfl, rfl, rfl, by decide, rfl, rfl⟩

/-- Claim C2, evaluated on the code. After the first `attackCell(2,2)` of the scenario
cell (2,2) is `Empty`, yet the second `attackCell(2,2)` does not print "Miss!": the scan
reaches offset 1, finds cell (3,2) with status `Ship`, prints "Hit on ship 0, segment 1",
damages segment 1 and sets cell (3,2), which was not attacked, to `Empty`. -/
theorem scenario_second_attack_hits_neighbouring_cell :
    ∃ f g1 g2 : GameField,
      mainField = some f ∧
      f.attackCell 2 2 = Result.ok g1 () [Msg.Hit 0 0] ∧
      readCell g1.field 2 2 = some CellStatus.Empty ∧
      g1.attackCell 2 2 = Result.ok g2 () [Msg.Hit 0 1] ∧
      g1.attackCell 2 2 ≠ Result.ok g1 () [Msg.Miss] ∧
      readCell g1.field 3 2 = some CellStatus.Ship ∧
      readCell g2.field 3 2 = some CellStatus.Empty ∧
      (g2.shipManager.ships.map (fun s => s.segments.map (fun seg => seg.state))) =
        [[State.Damaged, State.Damaged, State.Intact], [State.Intact, State.Intact]] :=
  ⟨_, _, _, rfl, rfl, rfl, rfl, by decide, rfl, rfl, rfl⟩

/-- Claim C3, evaluated on the code. In the scenario ship 0 lies on (2,2), (3,2), (4,2).
`attackCell(3,2)`, an attack on its footprint cell 1, prints "Hit on ship 0, segment 0"
and damages segment 0; `attackCell(0,2)`, an attack on a cell of no footprint, prints
"Hit on ship 0, segment 2" and sets cell (2,2) to `Empty`; `attackCell(9,9)` indexes
row 9 at column 10, outside the vector. -/
theorem scenario_attack_reports_offset_not_occupant :
    ∃ f g1 g2 : GameField,
      mainField = some f ∧
      f.attackCell 3 2 = Result.ok g1 () [Msg.Hit 0 0] ∧
      (g1.shipManager.ships.map (fun s => s.segments.map (fun seg => seg.state))) =
        [[State.Damaged, State.Intact, State.Intact], [State.Intact, State.Intact]] ∧
      readCell f.field 0 2 = some CellStatus.Unknown ∧
      f.attackCell 0 2 = Result.ok g2 () [Msg.Hit 0 2] ∧
      readCell g2.field 2 2 = some CellStatus.Empty ∧
      f.attackCell 9 9 = Result.undefined :=
  ⟨_, _, _, rfl, rfl, rfl, rfl, rfl, rfl, rfl⟩

/-- Claim C4, evaluated on the code. On a fresh 10 by 10 field a horizontal ship of
length 3 is rejected at (8,0) and accepted at (7,0). A vertical ship of length 2 anchored
at (10,0) passes the extent check (0+2 <= 10), and the collision loop then indexes row 0
at column 10, outside the vector: the call returns neither true nor false. The same
happens for a horizontal ship of length 3 anchored at x = 2^64 - 1, where x + 3 wraps
around to 2. -/
theorem placeShip_anchor_outside_grid_is_undefined :
    ∃ g g1 : GameField,
      GameField.ctor 10 10 = Except.ok g ∧
      g.placeShip (Ship.ctor 3 Orientation.Horizontal) 8 0 = Result.ok g false [] ∧
      g.placeShip (Ship.ctor 3 Orientation.Horizontal) 7 0 = Result.ok g1 true [] ∧
      ¬ (wrap (0 + (Ship.ctor 2 Orientation.Vertical).length) > g.height) ∧
      g.placeShip (Ship.ctor 2 Orientation.Vertical) 10 0 = Result.undefined ∧
      ¬ (wrap (18446744073709551615 + (Ship.ctor 3 Orientation.Horizontal).length) >
          g.width) ∧
      g.placeShip (Ship.ctor 3 Orientation.Horizontal) 18446744073709551615 0 =
        Result.undefined :=
  ⟨_, _, rfl, rfl, rfl, by decide, rfl, by decide, rfl⟩

/-! ## The segment state machine -/

/-- Claim C11. `takeDamage` maps `Intact` to `Damaged`, `Damaged` to `Destroyed` and
`Destroyed` to `Destroyed`; a state never moves back to an earlier one; and an in-range
`attackSegment` on a segment that is already `Destroyed` completes and returns the very
same ship. -/
theorem ShipSegment_takeDamage_state_machine :
    ShipSegment.takeDamage { state := State.Intact } = { state := State.Damaged } ∧
    ShipSegment.takeDamage { state := State.Damaged } = { state := State.Destroyed } ∧
    ShipSegment.takeDamage { state := State.Destroyed } = { state := State.Destroyed } ∧
    (∀ seg : ShipSegment, seg.takeDamage.state ≠ State.Intact ∧
      (seg.state ≠ State.Intact → seg.takeDamage.state = State.Destroyed) ∧
      (seg.state = State.Destroyed → seg.takeDamage = seg)) ∧
    (∀ (s : Ship) (index : Nat), s.wf → index < s.length →
      s.segments[index]? = some { state := State.Destroyed } →
      s.attackSegment index = Result.ok s () []) := by
  refine ⟨rfl, rfl, rfl, ?_, ?_⟩
  · rintro ⟨st⟩
    cases st <;> simp [ShipSegment.takeDamage]
  · intro s index hwf hlt hseg
    obtain ⟨seg, hseg1, hcall⟩ := attackSegment_in_range s index hwf hlt
    rw [hseg] at hseg1
    cases hseg1
    rw [hcall]
    have hset : s.segments.set index (ShipSegment.takeDamage { state := State.Destroyed }) =
        s.segments := by
      have hlt1 : index < s.segments.length := by rw [hwf]; exact hlt
      apply List.ext_getElem?
      intro k
      by_cases hk : index = k
      · subst hk
        rw [List.getElem?_set_self hlt1, hseg]
        rfl
      · rw [List.getElem?_set_ne hk]
    rw [hset]

/-- Instance of C11: a ship of length 2 whose segment 1 was attacked twice is attacked
at index 1 once more. -/
theorem ShipSegment_takeDamage_state_machine_witness :
    (Ship.mk 2 Orientation.Vertical
        [{ state := State.Intact }, { state := State.Destroyed }]).wf ∧
    (Ship.ctor 2 Orientation.Vertical).attackSegments [1, 1] =
      Result.ok (Ship.mk 2 Orientation.Vertical
        [{ state := State.Intact }, { state := State.Destroyed }]) () [] ∧
    (Ship.mk 2 Orientation.Vertical
        [{ state := State.Intact }, { state := State.Destroyed }]).attackSegment 1 =
      Result.ok (Ship.mk 2 Orientation.Vertical
        [{ state := State.Intact }, { state := State.Destroyed }]) () [] :=
  ⟨by decide, by decide,
    ShipSegment_takeDamage_state_machine.2.2.2.2 _ 1 (by decide) (by decide) (by decide)⟩

/-! ## `ShipManager::attackShip` and its notification -/

theorem attackSegments_fresh_isDestroyed_iff (L : Nat) (ori : Orientation) (idxs : List Nat)
    (hidx : ∀ i ∈ idxs, i < L) (s1 : Ship)
    (hrun : (Ship.ctor L ori).attackSegments idxs = Result.ok s1 () []) :
    s1.isDestroyed = true ↔ ∀ i, i < L → 2 ≤ idxs.count i := by
  have hwf : (Ship.ctor L ori).wf := by simp [Ship.wf, Ship.ctor]
  obtain ⟨s2, hrun2, _, _, hlen, hk⟩ := attackSegments_state idxs (Ship.ctor L ori) hwf hidx
  rw [hrun] at hrun2
  cases hrun2
  have hlen1 : s1.segments.length = L := by rw [hlen]; simp [Ship.ctor]
  unfold Ship.isDestroyed
  rw [isDestroyedLoop_iff]
  constructor
  · intro hall i hi
    have hi1 : i < s1.segments.length := by rw [hlen1]; exact hi
    have hmem := hall _ (List.getElem_mem hi1)
    have hki := hk i
    rw [List.getElem?_eq_getElem hi1] at hki
    simp only [Ship.ctor, List.getElem?_replicate_of_lt hi, Option.map_some',
      Option.some.injEq] at hki
    rw [hki] at hmem
    exact (takeDamage_iterate_intact _).mp hmem
  · intro hall seg hseg
    obtain ⟨i, hi1, rfl⟩ := List.getElem_of_mem hseg
    have hi : i < L := by rw [← hlen1]; exact hi1
    have hki := hk i
    rw [List.getElem?_eq_getElem hi1] at hki
    simp only [Ship.ctor, List.getElem?_replicate_of_lt hi, Option.map_some',
      Option.some.injEq] at hki
    rw [hki]
    exact (takeDamage_iterate_intact _).mpr (hall i hi)

theorem attackShip_in_range (m : ShipManager) (shipIndex segmentIndex : Nat) (s : Ship)
    (hs : m.ships[shipIndex]? = some s) (hwf : s.wf) (hj : segmentIndex < s.length) :
    ∃ s1, s.attackSegment segmentIndex = Result.ok s1 () [] ∧ s1.wf ∧ s1.length = s.length ∧
      ((s1.isDestroyed = true ∧
          m.attackShip shipIndex segmentIndex =
            Result.ok { ships := m.ships.set shipIndex s1 } () [Msg.Destroyed shipIndex]) ∨
        (s1.isDestroyed = false ∧
          m.attackShip shipIndex segmentIndex =
            Result.ok { ships := m.ships.set shipIndex s1 } () [])) := by
  obtain ⟨seg, _, hcall⟩ := attackSegment_in_range s segmentIndex hwf hj
  obtain ⟨hlt, _⟩ := List.getElem?_eq_some.mp hs
  refine ⟨_, hcall, ?_, rfl, ?_⟩
  · simp only [Ship.wf, List.length_set]; exact hwf
  · unfold ShipManager.attackShip
    rw [if_neg (Nat.not_le.mpr hlt), hs]
    simp only [hcall]
    cases hd : Ship.isDestroyed
        { s with segments := s.segments.set segmentIndex seg.takeDamage } with
    | true => exact Or.inl ⟨rfl, by simp⟩
    | false => exact Or.inr ⟨rfl, by simp⟩

theorem attackShipTrace_outputs (shipIndex : Nat) (idxs : List Nat) :
    ∀ (m : ShipManager) (s : Ship), m.ships[shipIndex]? = some s → s.wf →
      (∀ i ∈ idxs, i < s.length) →
      ∃ m1 outs, m.attackShipTrace shipIndex idxs = some (m1, outs) ∧
        outs.length = idxs.length ∧
        ∀ k, k < idxs.length →
          ∃ sk, s.attackSegments (idxs.take (k + 1)) = Result.ok sk () [] ∧
            ((sk.isDestroyed = true ∧ outs[k]? = some [Msg.Destroyed shipIndex]) ∨
             (sk.isDestroyed = false ∧ outs[k]? = some [])) := by
  induction idxs with
  | nil =>
    intro m s _ _ _
    exact ⟨m, [], rfl, rfl, fun k hk => absurd hk (Nat.not_lt_zero k)⟩
  | cons a rest ih =>
    intro m s hs hwf hidx
    have ha : a < s.length := hidx a (List.mem_cons_self a rest)
    obtain ⟨s1, hseg, hwf1, hlen1, hcases⟩ := attackShip_in_range m shipIndex a s hs hwf ha
    obtain ⟨hlt, _⟩ := List.getElem?_eq_some.mp hs
    have hs1 : (ShipManager.mk (m.ships.set shipIndex s1)).ships[shipIndex]? = some s1 :=
      List.getElem?_set_self hlt
    obtain ⟨m2, outs, htrace, hlen, hk⟩ :=
      ih (ShipManager.mk (m.ships.set shipIndex s1)) s1 hs1 hwf1
        (fun i hi => by rw [hlen1]; exact hidx i (List.mem_cons_of_mem a hi))
    have hstep : ∀ l : List Nat, s.attackSegments (a :: l) = s1.attackSegments l := by
      intro l
      simp only [Ship.attackSegments, hseg]
    rcases hcases with ⟨hd, hcall⟩ | ⟨hd, hcall⟩
    · refine ⟨m2, [Msg.Destroyed shipIndex] :: outs, ?_, by simp [hlen], ?_⟩
      · simp only [ShipManager.attackShipTrace, hcall, htrace]
      · intro k hk1
        cases k with
        | zero => exact ⟨s1, by simp [Ship.attackSegments, hseg], Or.inl ⟨hd, by simp⟩⟩
        | succ k =>
          obtain ⟨sk, hsk, hout⟩ := hk k (by simpa using hk1)
          exact ⟨sk, by rw [List.take_succ_cons, hstep]; exact hsk, by simpa using hout⟩
    · refine ⟨m2, [] :: outs, ?_, by simp [hlen], ?_⟩
      · simp only [ShipManager.attackShipTrace, hcall, htrace]
      · intro k hk1
        cases k with
        | zero => exact ⟨s1, by simp [Ship.attackSegments, hseg], Or.inr ⟨hd, by simp⟩⟩
        | succ k =>
          obtain ⟨sk, hsk, hout⟩ := hk k (by simpa using hk1)
          exact ⟨sk, by rw [List.take_succ_cons, hstep]; exact hsk, by simpa using hout⟩

/-- When every index occurs exactly twice, a proper prefix misses an occurrence of the
last index. -/
theorem proper_prefix_lacks_last (L : Nat) (idxs : List Nat)
    (hidx : ∀ i ∈ idxs, i < L) (hcount : ∀ i, i < L → idxs.count i = 2) (k : Nat)
    (hk : k < idxs.length) :
    (∀ i, i < L → 2 ≤ (idxs.take (k + 1)).count i) ↔ k + 1 = idxs.length := by
  constructor
  · intro hall
    by_contra hne
    have hne0 : idxs ≠ [] := by
      intro h0; rw [h0] at hk; exact Nat.not_lt_zero k hk
    obtain ⟨a, hsplit, ha⟩ : ∃ a, idxs.dropLast ++ [a] = idxs ∧ a < L :=
      ⟨idxs.getLast hne0, List.dropLast_append_getLast hne0, hidx _ (List.getLast_mem hne0)⟩
    have hc : (idxs.dropLast ++ [a]).count a = 2 := by rw [hsplit]; exact hcount a ha
    rw [List.count_append] at hc
    simp only [List.count_cons_self, List.count_nil] at hc
    have hle : (idxs.take (k + 1)).count a ≤ idxs.dropLast.count a := by
      rw [List.dropLast_eq_take]
      exact (List.take_sublist_take_left idxs (by omega)).count_le _
    have := hall a ha
    omega
  · intro hk1 i hi
    rw [hk1, List.take_length, hcount i hi]

/-- Claim C12, as the code falsifies it. A manager holds one ship of length 2; the calls
`attackShip(0, s)` for s = 0, 0, 1, 1 print the notification at the fourth call only;
a fifth call `attackShip(0, 0)` finds the ship already destroyed and prints the
notification again, so that call notifies although the ship did not become destroyed
by it, and the sequence carries two notifications. -/
theorem attackShip_notifies_again_when_already_destroyed :
    ∃ m4 m5 : ShipManager, ∃ s4 s5 : Ship,
      (ShipManager.mk [Ship.ctor 2 Orientation.Vertical]).attackShipTrace 0 [0, 0, 1, 1] =
        some (m4, [[], [], [], [Msg.Destroyed 0]]) ∧
      m4.ships[0]? = some s4 ∧ s4.isDestroyed = true ∧
      m4.attackShip 0 0 = Result.ok m5 () [Msg.Destroyed 0] ∧
      m5.ships[0]? = some s5 ∧
      ¬ (Msg.Destroyed 0 ∈ [Msg.Destroyed 0] ↔
          (s4.isDestroyed = false ∧ s5.isDestroyed = true)) ∧
      (ShipManager.mk [Ship.ctor 2 Orientation.Vertical]).attackShipTrace 0 [0, 0, 1, 1, 0] =
        some (m5, [[], [], [], [Msg.Destroyed 0], [Msg.Destroyed 0]]) :=
  ⟨_, _, _, _, rfl, rfl, rfl, rfl, rfl, by decide, rfl⟩

/-- Claim C12, amended. A successful `attackShip(shipIndex, segmentIndex)` prints the
notification for `shipIndex` exactly when the targeted ship is fully destroyed after the
call, and prints nothing else. Over a sequence of in-range calls against a freshly
constructed ship of length `L`, the call number `k` prints the notification exactly when
every segment has been attacked at least twice among the first `k` calls: none before the
call on which the last segment becomes `Destroyed`, one at that call and one at every
later call. When every segment is attacked exactly twice, in any order, exactly one
notification is printed, at the last call. -/
theorem attackShip_notifies_iff_destroyed_after (m : ShipManager) (shipIndex : Nat) :
    (∀ (s : Ship) (segmentIndex : Nat), m.ships[shipIndex]? = some s → s.wf →
      segmentIndex < s.length →
      ∃ m1 s1 out, m.attackShip shipIndex segmentIndex = Result.ok m1 () out ∧
        s.attackSegment segmentIndex = Result.ok s1 () [] ∧
        m1.ships = m.ships.set shipIndex s1 ∧
        (out = [Msg.Destroyed shipIndex] ∨ out = []) ∧
        (out = [Msg.Destroyed shipIndex] ↔ s1.isDestroyed = true)) ∧
    (∀ (L : Nat) (ori : Orientation) (idxs : List Nat),
      m.ships[shipIndex]? = some (Ship.ctor L ori) → (∀ i ∈ idxs, i < L) →
      ∃ m1 outs, m.attackShipTrace shipIndex idxs = some (m1, outs) ∧
        outs.length = idxs.length ∧
        (∀ k, k < idxs.length →
          ∃ out, outs[k]? = some out ∧ (out = [Msg.Destroyed shipIndex] ∨ out = []) ∧
            (out = [Msg.Destroyed shipIndex] ↔
              ∀ i, i < L → 2 ≤ (idxs.take (k + 1)).count i)) ∧
        (0 < L → (∀ i, i < L → idxs.count i = 2) →
          (∀ k, k < idxs.length →
            ∃ out, outs[k]? = some out ∧ (out = [Msg.Destroyed shipIndex] ∨ out = []) ∧
              (out = [Msg.Destroyed shipIndex] ↔ k + 1 = idxs.length)) ∧
          outs.flatten = [Msg.Destroyed shipIndex])) := by
  constructor
  · intro s segmentIndex hs hwf hj
    obtain ⟨s1, hseg, _, _, hcases⟩ := attackShip_in_range m shipIndex segmentIndex s hs hwf hj
    rcases hcases with ⟨hd, hcall⟩ | ⟨hd, hcall⟩
    · exact ⟨_, s1, _, hcall, hseg, rfl, Or.inl rfl, by simp [hd]⟩
    · exact ⟨_, s1, _, hcall, hseg, rfl, Or.inr rfl, by simp [hd]⟩
  · intro L ori idxs hs hidx
    have hwf : (Ship.ctor L ori).wf := by simp [Ship.wf, Ship.ctor]
    obtain ⟨m1, outs, htrace, hlen, hk⟩ :=
      attackShipTrace_outputs shipIndex idxs m (Ship.ctor L ori) hs hwf hidx
    have hper : ∀ k, k < idxs.length →
        ∃ out, outs[k]? = some out ∧ (out = [Msg.Destroyed shipIndex] ∨ out = []) ∧
          (out = [Msg.Destroyed shipIndex] ↔
            ∀ i, i < L → 2 ≤ (idxs.take (k + 1)).count i) := by
      intro k hklt
      obtain ⟨sk, hsk, hout⟩ := hk k hklt
      have hiff := attackSegments_fresh_isDestroyed_iff L ori (idxs.take (k + 1))
        (fun i hi => hidx i (List.mem_of_mem_take hi)) sk hsk
      rcases hout with ⟨hd, ho⟩ | ⟨hd, ho⟩
      · exact ⟨_, ho, Or.inl rfl, by simp only [true_iff]; exact hiff.mp hd⟩
      · refine ⟨_, ho, Or.inr rfl, ?_⟩
        constructor
        · intro h; cases h
        · intro h
          rw [hiff.mpr h] at hd
          cases hd
    refine ⟨m1, outs, htrace, hlen, hper, ?_⟩
    intro hL hcount
    have hlast : ∀ k, k < idxs.length →
        ∃ out, outs[k]? = some out ∧ (out = [Msg.Destroyed shipIndex] ∨ out = []) ∧
          (out = [Msg.Destroyed shipIndex] ↔ k + 1 = idxs.length) := by
      intro k hklt
      obtain ⟨out, ho, hor, hiff⟩ := hper k hklt
      exact ⟨out, ho, hor, hiff.trans (proper_prefix_lacks_last L idxs hidx hcount k hklt)⟩
    refine ⟨hlast, ?_⟩
    have hpos : 0 < idxs.length := by
      have h0 := hcount 0 hL
      have := List.count_le_length 0 idxs
      omega
    have houts : outs = List.replicate (idxs.length - 1) [] ++ [[Msg.Destroyed shipIndex]] := by
      apply List.ext_getElem?
      intro k
      by_cases hklt : k < idxs.length
      · obtain ⟨out, ho, hor, hiff⟩ := hlast k hklt
        rw [ho]
        by_cases hke : k + 1 = idxs.length
        · rw [hiff.mpr hke]
          rw [List.getElem?_append_right (by simp; omega)]
          simp only [List.length_replicate]
          rw [show k - (idxs.length - 1) = 0 by omega]
          rfl
        · rcases hor with h | h
          · exact absurd (hiff.mp h) hke
          · rw [h, List.getElem?_append_left (by simp; omega)]
            rw [List.getElem?_replicate_of_lt (by omega)]
      · rw [List.getElem?_eq_none (by omega), List.getElem?_eq_none (by simp; omega)]
    rw [houts]
    simp

/-- Instance of C12 (amended): a ship of length 2 attacked at 0, 1, 1, 0; the single
notification comes with the fourth call. -/
theorem attackShip_notifies_iff_destroyed_after_witness :
    (ShipManager.mk [Ship.ctor 2 Orientation.Vertical]).ships[0]? =
      some (Ship.ctor 2 Orientation.Vertical) ∧
    (∀ i ∈ [0, 1, 1, 0], i < 2) ∧ 0 < 2 ∧ (∀ i, i < 2 → [0, 1, 1, 0].count i = 2) ∧
    (ShipManager.mk [Ship.ctor 2 Orientation.Vertical]).attackShipTrace 0 [0, 1, 1, 0] =
      some (ShipManager.mk [Ship.mk 2 Orientation.Vertical
        [{ state := State.Destroyed }, { state := State.Destroyed }]],
        [[], [], [], [Msg.Destroyed 0]]) ∧
    ∃ m1 outs,
      (ShipManager.mk [Ship.ctor 2 Orientation.Vertical]).attackShipTrace 0 [0, 1, 1, 0] =
        some (m1, outs) ∧
      outs.length = [0, 1, 1, 0].length ∧ outs.flatten = [Msg.Destroyed 0] := by
  obtain ⟨m1, outs, htrace, hlen, _, hlast⟩ :=
    (attackShip_notifies_iff_destroyed_after
      (ShipManager.mk [Ship.ctor 2 Orientation.Vertical]) 0).2 2 Orientation.Vertical
      [0, 1, 1, 0] rfl (by decide)
  exact ⟨rfl, by decide, by decide, by decide, by decide, m1, outs, htrace, hlen,
    (hlast (by decide) (by decide)).2⟩

/-! ## Code paths that miss what their siblings do -/

/-- Claim C13, evaluated on the code. Two horizontal ships of length 1 are placed at (0,0)
and (1,0) on a fresh 10 by 10 field. `attackCell(0,0)` and then `attackCell(1,0)` each
print "Hit on ship 0, segment 0"; after the second hit the only segment of ship 0 is
`Destroyed`, so ship 0 is fully destroyed, and yet the output of that attack is the hit
line alone: no "Ship 0 is destroyed!" is printed. `ShipManager::attackShip` on the same
registry and segment does print it. -/
theorem attackCell_prints_no_destruction_notice :
    ∃ f0 f1 f2 g1 g2 : GameField, ∃ s1 s2 : Ship, ∃ m2 : ShipManager,
      GameField.ctor 10 10 = Except.ok f0 ∧
      f0.placeShip (Ship.ctor 1 Orientation.Horizontal) 0 0 = Result.ok f1 true [] ∧
      f1.placeShip (Ship.ctor 1 Orientation.Horizontal) 1 0 = Result.ok f2 true [] ∧
      f2.attackCell 0 0 = Result.ok g1 () [Msg.Hit 0 0] ∧
      g1.shipManager.ships[0]? = some s1 ∧ s1.isDestroyed = false ∧
      g1.attackCell 1 0 = Result.ok g2 () [Msg.Hit 0 0] ∧
      g2.shipManager.ships[0]? = some s2 ∧ s2.isDestroyed = true ∧
      Msg.Destroyed 0 ∉ [Msg.Hit 0 0] ∧
      g1.shipManager.attackShip 0 0 = Result.ok m2 () [Msg.Destroyed 0] ∧
      m2 = g2.shipManager :=
  ⟨_, _, _, _, _, _, _, _, rfl, rfl, rfl, rfl, rfl, rfl, rfl, rfl, rfl, by decide, rfl, rfl⟩

/-- Claim C15, evaluated on the code. On the field of `main`, whose registry holds two
ships, the copy constructor yields the same width, height and cells but an empty
registry, whereas copy assignment yields the field itself; the two results differ. -/
theorem GameField_copyCtor_drops_registry :
    ∃ g : GameField, mainField = some g ∧
      g.shipManager.ships.length = 2 ∧
      (GameField.copyCtor g).width = g.width ∧ (GameField.copyCtor g).height = g.height ∧
      (GameField.copyCtor g).field = g.field ∧
      (GameField.copyCtor g).shipManager.ships = [] ∧
      (GameField.copyCtor g).shipManager.ships ≠ g.shipManager.ships ∧
      (∀ self : GameField, GameField.copyAssign self g = g) ∧
      (∀ self : GameField, GameField.copyCtor g ≠ GameField.copyAssign self g) := by
  refine ⟨_, rfl, rfl, rfl, rfl, rfl, rfl, by decide, fun _ => rfl, ?_⟩
  intro self h
  have hlen : (0 : Nat) = 2 :=
    congrArg (fun r : GameField => r.shipManager.ships.length) h
  exact absurd hlen (by decide)

/-- Claim C17, evaluated on the code. On the field of `main` the coordinates (8,2) pass
the range check of `attackCell`; the scan of ship 0 (horizontal, length 3) reads the
cells (8,2), (9,2) and then row 2 at column 10, outside the row: the attack is undefined
although the coordinates are in bounds. The same happens at (0,9) for ship 1 (vertical),
which reads row 10. -/
theorem attackCell_in_bounds_reads_outside_grid :
    ∃ g : GameField, mainField = some g ∧ g.wf ∧
      8 < g.width ∧ 2 < g.height ∧
      readCell g.field (targetX Orientation.Horizontal 8 0) (targetY Orientation.Horizontal 2 0) =
        some CellStatus.Unknown ∧
      readCell g.field (targetX Orientation.Horizontal 8 1) (targetY Orientation.Horizontal 2 1) =
        some CellStatus.Unknown ∧
      targetX Orientation.Horizontal 8 2 = 10 ∧ ¬ (10 < g.width) ∧
      readCell g.field (targetX Orientation.Horizontal 8 2) (targetY Orientation.Horizontal 2 2) =
        none ∧
      g.attackCell 8 2 = Result.undefined ∧
      0 < g.width ∧ 9 < g.height ∧
      targetY Orientation.Vertical 9 1 = 10 ∧ ¬ (10 < g.height) ∧
      g.attackCell 0 9 = Result.undefined :=
  ⟨_, rfl, by decide, by decide, by decide, rfl, rfl, rfl, by decide, rfl, rfl,
    by decide, by decide, rfl, by decide, rfl⟩

/-- Claim C18, evaluated on the code. On a fresh 10 by 10 field a horizontal ship of
length 3 anchored at (0,10) is not rejected by the bounds check (0+3 <= 10; `y` is not
compared with `height`), and the collision loop indexes row 10, outside the matrix. A
vertical ship of length 2 anchored at y = 2^64 - 1 is not rejected either, because the
sum y + 2 wraps around to 1, and the loop indexes row 2^64 - 1. -/
theorem placeShip_unrejected_anchor_indexes_outside_grid :
    ∃ g : GameField, GameField.ctor 10 10 = Except.ok g ∧ g.wf ∧
      ¬ ((Ship.ctor 3 Orientation.Horizontal).getOrientation = Orientation.Horizontal ∧
          wrap (0 + (Ship.ctor 3 Orientation.Horizontal).getLength) > g.width) ∧
      targetY Orientation.Horizontal 10 0 = 10 ∧ ¬ (10 < g.height) ∧
      readCell g.field (targetX Orientation.Horizontal 0 0) (targetY Orientation.Horizontal 10 0) =
        none ∧
      collisionLoop g.field Orientation.Horizontal 0 10 3 0 = Collision.undefined ∧
      g.placeShip (Ship.ctor 3 Orientation.Horizontal) 0 10 = Result.undefined ∧
      wrap (18446744073709551615 + (Ship.ctor 2 Orientation.Vertical).getLength) = 1 ∧
      ¬ ((Ship.ctor 2 Orientation.Vertical).getOrientation = Orientation.Vertical ∧
          wrap (18446744073709551615 + (Ship.ctor 2 Orientation.Vertical).getLength) >
            g.height) ∧
      targetY Orientation.Vertical 18446744073709551615 0 = 18446744073709551615 ∧
      collisionLoop g.field Orientation.Vertical 0 18446744073709551615 2 0 =
        Collision.undefined ∧
      g.placeShip (Ship.ctor 2 Orientation.Vertical) 0 18446744073709551615 =
        Result.undefined :=
  ⟨_, rfl, by decide, by decide, rfl, by decide, rfl, rfl, rfl, by decide, by decide,
    by decide, rfl, rfl⟩

/-! ## The scan of `attackCell` -/

theorem segmentScan_found_inv {field : List (List CellStatus)} {ori : Orientation}
    {x y : Nat} :
    ∀ (n j0 j tx ty : Nat), segmentScan field ori x y n j0 = SegmentScan.found j tx ty →
      ∃ k, k < n ∧ j = j0 + k ∧ tx = targetX ori x j ∧ ty = targetY ori y j ∧
        readCell field tx ty = some CellStatus.Ship ∧
        ∀ k1, k1 < k → ∃ c, readCell field (targetX ori x (j0 + k1)) (targetY ori y (j0 + k1)) =
          some c ∧ c ≠ CellStatus.Ship := by
  intro n
  induction n with
  | zero => intro j0 j tx ty h; simp [segmentScan] at h
  | succ n ih =>
    intro j0 j tx ty h
    unfold segmentScan at h
    cases hr : readCell field (targetX ori x j0) (targetY ori y j0) with
    | none => rw [hr] at h; cases h
    | some c =>
      rw [hr] at h
      by_cases hc : c = CellStatus.Ship
      · subst hc
        simp only [if_true, SegmentScan.found.injEq] at h
        obtain ⟨rfl, rfl, rfl⟩ := h
        exact ⟨0, by omega, rfl, rfl, rfl, hr, fun k1 hk1 => absurd hk1 (Nat.not_lt_zero k1)⟩
      · simp only [hc, if_false] at h
        obtain ⟨k, hk, hj, htx, hty, hship, hbefore⟩ := ih (j0 + 1) j tx ty h
        refine ⟨k + 1, by omega, by omega, htx, hty, hship, ?_⟩
        intro k1 hk1
        cases k1 with
        | zero => exact ⟨c, hr, hc⟩
        | succ k1 =>
          rw [show j0 + (k1 + 1) = j0 + 1 + k1 by omega]
          exact hbefore k1 (by omega)

theorem segmentScan_notFound_inv {field : List (List CellStatus)} {ori : Orientation}
    {x y : Nat} :
    ∀ (n j0 : Nat), segmentScan field ori x y n j0 = SegmentScan.notFound →
      ∀ k, k < n → ∃ c, readCell field (targetX ori x (j0 + k)) (targetY ori y (j0 + k)) =
        some c ∧ c ≠ CellStatus.Ship := by
  intro n
  induction n with
  | zero => intro j0 _ k hk; omega
  | succ n ih =>
    intro j0 h k hk
    unfold segmentScan at h
    cases hr : readCell field (targetX ori x j0) (targetY ori y j0) with
    | none => rw [hr] at h; cases h
    | some c =>
      rw [hr] at h
      by_cases hc : c = CellStatus.Ship
      · simp only [hc, if_true] at h
        cases h
      · simp only [hc, if_false] at h
        cases k with
        | zero => exact ⟨c, hr, hc⟩
        | succ k =>
          rw [show j0 + (k + 1) = j0 + 1 + k by omega]
          exact ih (j0 + 1) h k (by omega)

theorem segmentScan_eq_found {field : List (List CellStatus)} {ori : Orientation}
    {x y : Nat} :
    ∀ (k n j0 : Nat), k < n →
      (∀ k1, k1 < k → ∃ c, readCell field (targetX ori x (j0 + k1)) (targetY ori y (j0 + k1)) =
        some c ∧ c ≠ CellStatus.Ship) →
      readCell field (targetX ori x (j0 + k)) (targetY ori y (j0 + k)) = some CellStatus.Ship →
      segmentScan field ori x y n j0 =
        SegmentScan.found (j0 + k) (targetX ori x (j0 + k)) (targetY ori y (j0 + k)) := by
  intro k
  induction k with
  | zero =>
    intro n j0 hn _ hship
    obtain ⟨m, rfl⟩ : ∃ m, n = m + 1 := ⟨n - 1, by omega⟩
    rw [Nat.add_zero] at hship ⊢
    rw [segmentScan, hship]
    simp
  | succ k ih =>
    intro n j0 hn hbefore hship
    obtain ⟨m, rfl⟩ : ∃ m, n = m + 1 := ⟨n - 1, by omega⟩
    obtain ⟨c, hc, hne⟩ := hbefore 0 (by omega)
    rw [Nat.add_zero] at hc
    rw [segmentScan, hc]
    simp only [hne, if_false]
    have hshift : ∀ t, j0 + (t + 1) = j0 + 1 + t := fun t => by omega
    rw [hshift k] at hship ⊢
    apply ih m (j0 + 1) (by omega) _ hship
    intro k1 hk1
    rw [← hshift k1]
    exact hbefore (k1 + 1) (by omega)

theorem segmentScan_eq_notFound {field : List (List CellStatus)} {ori : Orientation}
    {x y : Nat} :
    ∀ (n j0 : Nat),
      (∀ k, k < n → ∃ c, readCell field (targetX ori x (j0 + k)) (targetY ori y (j0 + k)) =
        some c ∧ c ≠ CellStatus.Ship) →
      segmentScan field ori x y n j0 = SegmentScan.notFound := by
  intro n
  induction n with
  | zero => intro j0 _; rfl
  | succ n ih =>
    intro j0 h
    obtain ⟨c, hc, hne⟩ := h 0 (by omega)
    rw [Nat.add_zero] at hc
    rw [segmentScan, hc]
    simp only [hne, if_false]
    apply ih
    intro k hk
    rw [show j0 + 1 + k = j0 + (k + 1) by omega]
    exact h (k + 1) (by omega)

theorem shipScan_found_inv {field : List (List CellStatus)} {x y : Nat} :
    ∀ (ships : List Ship) (i0 i j tx ty : Nat),
      shipScan field x y ships i0 = ShipScan.found i j tx ty →
      ∃ k ship, i = i0 + k ∧ ships[k]? = some ship ∧
        segmentScan field ship.orientation x y ship.length 0 = SegmentScan.found j tx ty ∧
        ∀ k1 ship1, k1 < k → ships[k1]? = some ship1 →
          segmentScan field ship1.orientation x y ship1.length 0 = SegmentScan.notFound := by
  intro ships
  induction ships with
  | nil => intro i0 i j tx ty h; simp [shipScan] at h
  | cons s rest ih =>
    intro i0 i j tx ty h
    unfold shipScan at h
    simp only [Ship.getLength, Ship.getOrientation] at h
    cases hs : segmentScan field s.orientation x y s.length 0 with
    | undefined => rw [hs] at h; cases h
    | found j1 tx1 ty1 =>
      rw [hs] at h
      simp only [ShipScan.found.injEq] at h
      obtain ⟨rfl, rfl, rfl, rfl⟩ := h
      exact ⟨0, s, rfl, List.getElem?_cons_zero, hs,
        fun k1 _ hk1 => absurd hk1 (Nat.not_lt_zero k1)⟩
    | notFound =>
      rw [hs] at h
      obtain ⟨k, ship, hi, hget, hseg, hbefore⟩ := ih (i0 + 1) i j tx ty h
      refine ⟨k + 1, ship, by omega, by simpa using hget, hseg, ?_⟩
      intro k1 ship1 hk1 hget1
      cases k1 with
      | zero =>
        simp only [List.getElem?_cons_zero, Option.some.injEq] at hget1
        subst hget1
        exact hs
      | succ k1 => exact hbefore k1 ship1 (by omega) (by simpa using hget1)

theorem shipScan_notFound_inv {field : List (List CellStatus)} {x y : Nat} :
    ∀ (ships : List Ship) (i0 : Nat), shipScan field x y ships i0 = ShipScan.notFound →
      ∀ ship ∈ ships,
        segmentScan field ship.orientation x y ship.length 0 = SegmentScan.notFound := by
  intro ships
  induction ships with
  | nil => intro i0 _ ship hmem; cases hmem
  | cons s rest ih =>
    intro i0 h ship hmem
    unfold shipScan at h
    simp only [Ship.getLength, Ship.getOrientation] at h
    cases hs : segmentScan field s.orientation x y s.length 0 with
    | undefined => rw [hs] at h; cases h
    | found j1 tx1 ty1 => rw [hs] at h; cases h
    | notFound =>
      rw [hs] at h
      rcases List.mem_cons.mp hmem with rfl | hrest
      · exact hs
      · exact ih (i0 + 1) h ship hrest

theorem shipScan_eq_found {field : List (List CellStatus)} {x y : Nat} :
    ∀ (ships : List Ship) (i0 k : Nat) (ship : Ship) (j tx ty : Nat),
      ships[k]? = some ship →
      segmentScan field ship.orientation x y ship.length 0 = SegmentScan.found j tx ty →
      (∀ k1 ship1, k1 < k → ships[k1]? = some ship1 →
        segmentScan field ship1.orientation x y ship1.length 0 = SegmentScan.notFound) →
      shipScan field x y ships i0 = ShipScan.found (i0 + k) j tx ty := by
  intro ships
  induction ships with
  | nil => intro i0 k ship j tx ty hget; simp at hget
  | cons s rest ih =>
    intro i0 k ship j tx ty hget hseg hbefore
    cases k with
    | zero =>
      simp only [List.getElem?_cons_zero, Option.some.injEq] at hget
      subst hget
      simp only [shipScan, Ship.getLength, Ship.getOrientation, hseg, Nat.add_zero]
    | succ k =>
      have hs := hbefore 0 s (by omega) List.getElem?_cons_zero
      simp only [shipScan, Ship.getLength, Ship.getOrientation, hs]
      rw [show i0 + (k + 1) = i0 + 1 + k by omega]
      apply ih (i0 + 1) k ship j tx ty (by simpa using hget) hseg
      intro k1 ship1 hk1 hget1
      exact hbefore (k1 + 1) ship1 (by omega) (by simpa using hget1)

theorem shipScan_eq_notFound {field : List (List CellStatus)} {x y : Nat} :
    ∀ (ships : List Ship) (i0 : Nat),
      (∀ ship ∈ ships,
        segmentScan field ship.orientation x y ship.length 0 = SegmentScan.notFound) →
      shipScan field x y ships i0 = ShipScan.notFound := by
  intro ships
  induction ships with
  | nil => intro i0 _; rfl
  | cons s rest ih =>
    intro i0 h
    have hs := h s (List.mem_cons_self s rest)
    simp only [shipScan, Ship.getLength, Ship.getOrientation, hs]
    exact ih (i0 + 1) (fun ship hmem => h ship (List.mem_cons_of_mem s hmem))

/-! ## Outcomes of `attackCell` and of a call -/

theorem attackSegment_throw_inv {s s1 : Ship} {index : Nat} {e : Exc} {out : List Msg}
    (h : s.attackSegment index = Result.throw s1 e out) : out = [] := by
  unfold Ship.attackSegment at h
  split at h
  · simp only [Result.throw.injEq] at h
    exact h.2.2.symm
  · split at h <;> cases h

theorem attackCell_ok_inv {g g1 : GameField} {x y : Nat} {out : List Msg}
    (h : g.attackCell x y = Result.ok g1 () out) :
    x < g.width ∧ y < g.height ∧
    ((shipScan g.field x y g.shipManager.ships 0 = ShipScan.notFound ∧ g1 = g ∧
        out = [Msg.Miss]) ∨
     (∃ i j tx ty ship ship1 field1 o,
        shipScan g.field x y g.shipManager.ships 0 = ShipScan.found i j tx ty ∧
        g.shipManager.ships[i]? = some ship ∧
        ship.attackSegment j = Result.ok ship1 () o ∧
        writeCell g.field tx ty CellStatus.Empty = some field1 ∧
        g1 = { g with field := field1,
                      shipManager := { ships := g.shipManager.ships.set i ship1 } } ∧
        out = [Msg.Hit i j])) := by
  unfold GameField.attackCell at h
  simp only [ShipManager.getShips] at h
  split at h
  · cases h
  · rename_i hrange
    have hx : x < g.width := by omega
    have hy : y < g.height := by omega
    refine ⟨hx, hy, ?_⟩
    split at h
    · cases h
    · rename_i hscan
      simp only [Result.ok.injEq, true_and] at h
      exact Or.inl ⟨hscan, h.1.symm, h.2.symm⟩
    · rename_i i j tx ty hscan
      split at h
      · cases h
      · rename_i ship hship
        split at h
        · cases h
        · cases h
        · rename_i ship1 u o hseg
          split at h
          · cases h
          · rename_i field1 hwrite
            simp only [Result.ok.injEq, true_and] at h
            exact Or.inr ⟨i, j, tx, ty, ship, ship1, field1, o, hscan, hship, hseg, hwrite,
              h.1.symm, h.2.symm⟩

theorem attackCell_throw_inv {g g1 : GameField} {x y : Nat} {e : Exc} {out : List Msg}
    (h : g.attackCell x y = Result.throw g1 e out) : g1 = g ∧ out = [] := by
  unfold GameField.attackCell at h
  simp only [ShipManager.getShips] at h
  split at h
  · simp only [Result.throw.injEq] at h
    exact ⟨h.1.symm, h.2.2.symm⟩
  · split at h
    · cases h
    · cases h
    · split at h
      · cases h
      · split at h
        · cases h
        · rename_i hseg
          simp only [Result.throw.injEq] at h
          obtain ⟨hg, _, ho⟩ := h
          exact ⟨hg.symm, by rw [← ho]; exact attackSegment_throw_inv hseg⟩
        · split at h <;> cases h

theorem placeShip_throw_inv {g g1 : GameField} {ship : Ship} {x y : Nat} {e : Exc}
    {out : List Msg} (h : g.placeShip ship x y = Result.throw g1 e out) : False := by
  unfold GameField.placeShip at h
  simp only [Ship.getLength, Ship.getOrientation] at h
  split at h
  · cases h
  · split at h
    · cases h
    · cases h
    · split at h <;> cases h

theorem placeShip_cell_step {g g1 : GameField} {ship : Ship} {x y : Nat} {b : Bool}
    {out : List Msg} (h : g.placeShip ship x y = Result.ok g1 b out) (cx cy : Nat) :
    readCell g1.field cx cy = readCell g.field cx cy ∨
    (b = true ∧ readCell g.field cx cy = some CellStatus.Unknown ∧
      readCell g1.field cx cy = some CellStatus.Ship) := by
  cases b with
  | false =>
    obtain ⟨hg, _⟩ := placeShip_false_inv h
    exact Or.inl (by rw [hg])
  | true =>
    obtain ⟨hfree, field1, hmark, hg1, _⟩ := placeShip_true_inv h
    have hread := collisionLoop_free ship.length 0 hfree
    obtain ⟨hin, hother⟩ := markLoop_spec ship.length 0 g.field field1 hmark
    subst hg1
    by_cases hfoot : ∃ k, k < ship.length ∧ cx = targetX ship.orientation x (0 + k) ∧
        cy = targetY ship.orientation y (0 + k)
    · obtain ⟨k, hk, rfl, rfl⟩ := hfoot
      exact Or.inr ⟨rfl, hread k hk, hin k hk⟩
    · refine Or.inl (hother cx cy ?_)
      intro k hk hc
      exact hfoot ⟨k, hk, hc⟩

theorem attackCell_cell_step {g g1 : GameField} {x y : Nat} {out : List Msg}
    (h : g.attackCell x y = Result.ok g1 () out) :
    ∃ tx ty,
      (∀ cx cy, ¬ (cx = tx ∧ cy = ty) → readCell g1.field cx cy = readCell g.field cx cy) ∧
      ((readCell g1.field tx ty = readCell g.field tx ty ∧ out = [Msg.Miss]) ∨
       (readCell g.field tx ty = some CellStatus.Ship ∧
        readCell g1.field tx ty = some CellStatus.Empty ∧ ∃ i j, out = [Msg.Hit i j])) := by
  obtain ⟨_, _, hcase⟩ := attackCell_ok_inv h
  rcases hcase with ⟨_, hg, hout⟩ | ⟨i, j, tx, ty, ship, ship1, field1, o, hscan, _, _, hwrite,
    hg, hout⟩
  · subst hg
    exact ⟨x, y, fun _ _ _ => rfl, Or.inl ⟨rfl, hout⟩⟩
  · obtain ⟨k, s, _, _, hseg, _⟩ := shipScan_found_inv _ _ _ _ _ _ hscan
    obtain ⟨_, _, _, _, _, hship, _⟩ := segmentScan_found_inv _ _ _ _ _ hseg
    subst hg
    exact ⟨tx, ty, fun cx cy hne => readCell_writeCell_other hwrite cx cy hne,
      Or.inr ⟨hship, readCell_writeCell_same hwrite, i, j, hout⟩⟩

theorem call_cell_step {g g1 : GameField} {c : Call} {out : List Msg}
    (h : g.call c = some (g1, out)) (cx cy : Nat) :
    readCell g1.field cx cy = readCell g.field cx cy ∨
    (readCell g.field cx cy = some CellStatus.Unknown ∧
      readCell g1.field cx cy = some CellStatus.Ship) ∨
    (readCell g.field cx cy = some CellStatus.Ship ∧
      readCell g1.field cx cy = some CellStatus.Empty) := by
  cases c with
  | placeShip ship x y =>
    simp only [GameField.call] at h
    split at h
    · rename_i g2 b o hcall
      simp only [Option.some.injEq, Prod.mk.injEq] at h
      obtain ⟨rfl, _⟩ := h
      rcases placeShip_cell_step hcall cx cy with hs | ⟨_, h1, h2⟩
      · exact Or.inl hs
      · exact Or.inr (Or.inl ⟨h1, h2⟩)
    · rename_i hcall
      exact absurd hcall (fun hc => placeShip_throw_inv hc)
    · cases h
  | attackCell x y =>
    simp only [GameField.call] at h
    split at h
    · rename_i g2 u o hcall
      simp only [Option.some.injEq, Prod.mk.injEq] at h
      obtain ⟨rfl, _⟩ := h
      obtain ⟨tx, ty, hother, hcell⟩ := attackCell_cell_step hcall
      by_cases hc : cx = tx ∧ cy = ty
      · obtain ⟨rfl, rfl⟩ := hc
        rcases hcell with ⟨hs, _⟩ | ⟨h1, h2, _⟩
        · exact Or.inl hs
        · exact Or.inr (Or.inr ⟨h1, h2⟩)
      · exact Or.inl (hother cx cy hc)
    · rename_i g2 e o hcall
      simp only [Option.some.injEq, Prod.mk.injEq] at h
      obtain ⟨rfl, _⟩ := h
      obtain ⟨hg, _⟩ := attackCell_throw_inv hcall
      exact Or.inl (by rw [hg])
    · cases h

theorem run_cell_monotone (calls : List Call) :
    ∀ (g g1 : GameField) (out : List Msg), g.run calls = some (g1, out) →
      ∀ cx cy,
        (readCell g.field cx cy = some CellStatus.Empty →
          readCell g1.field cx cy = some CellStatus.Empty) ∧
        (readCell g.field cx cy = some CellStatus.Ship →
          readCell g1.field cx cy = some CellStatus.Ship ∨
          readCell g1.field cx cy = some CellStatus.Empty) ∧
        (readCell g.field cx cy = none ↔ readCell g1.field cx cy = none) := by
  induction calls with
  | nil =>
    intro g g1 out h cx cy
    simp only [GameField.run, Option.some.injEq, Prod.mk.injEq] at h
    obtain ⟨rfl, _⟩ := h
    exact ⟨id, Or.inl, Iff.rfl⟩
  | cons c rest ih =>
    intro g g1 out h cx cy
    simp only [GameField.run] at h
    split at h
    · cases h
    · rename_i g2 out1 hcall
      split at h
      · cases h
      · rename_i g3 out2 hrun
        simp only [Option.some.injEq, Prod.mk.injEq] at h
        obtain ⟨rfl, _⟩ := h
        obtain ⟨i1, i2, i3⟩ := ih g2 g3 out2 hrun cx cy
        rcases call_cell_step hcall cx cy with hs | ⟨h1, h2⟩ | ⟨h1, h2⟩
        · rw [← hs]
          exact ⟨i1, i2, i3⟩
        · refine ⟨?_, ?_, ?_⟩
          · intro he; rw [h1] at he; cases he
          · intro he; rw [h1] at he; cases he
          · rw [← i3, h1, h2]; simp
        · refine ⟨?_, ?_, ?_⟩
          · intro he; rw [h1] at he; cases he
          · intro _; exact Or.inr (i1 h2)
          · rw [← i3, h1, h2]; simp

/-! ## Cell statuses only move forward -/

/-- Claim C14. A `placeShip` call changes a cell only from `Unknown` to `Ship`, and only
when it returns true; an `attackCell` call changes at most one cell, from `Ship` to
`Empty`, and only when it prints a hit; a throwing `attackCell` changes nothing. Hence
over every sequence of calls a cell that is `Empty` stays `Empty`, a cell that is `Ship`
is afterwards `Ship` or `Empty`, and the cells of the matrix stay the same cells. -/
theorem GameField_cell_status_one_directional :
    (∀ (g g1 : GameField) (ship : Ship) (x y : Nat) (b : Bool) (out : List Msg),
      g.placeShip ship x y = Result.ok g1 b out → ∀ cx cy,
        readCell g1.field cx cy = readCell g.field cx cy ∨
        (b = true ∧ readCell g.field cx cy = some CellStatus.Unknown ∧
          readCell g1.field cx cy = some CellStatus.Ship)) ∧
    (∀ (g g1 : GameField) (x y : Nat) (out : List Msg),
      g.attackCell x y = Result.ok g1 () out →
      ∃ tx ty,
        (∀ cx cy, ¬ (cx = tx ∧ cy = ty) →
          readCell g1.field cx cy = readCell g.field cx cy) ∧
        ((readCell g1.field tx ty = readCell g.field tx ty ∧ out = [Msg.Miss]) ∨
         (readCell g.field tx ty = some CellStatus.Ship ∧
          readCell g1.field tx ty = some CellStatus.Empty ∧ ∃ i j, out = [Msg.Hit i j]))) ∧
    (∀ (g g1 : GameField) (x y : Nat) (e : Exc) (out : List Msg),
      g.attackCell x y = Result.throw g1 e out → g1 = g) ∧
    (∀ (g g1 : GameField) (calls : List Call) (out : List Msg),
      g.run calls = some (g1, out) → ∀ cx cy,
        (readCell g.field cx cy = some CellStatus.Empty →
          readCell g1.field cx cy = some CellStatus.Empty) ∧
        (readCell g.field cx cy = some CellStatus.Ship →
          readCell g1.field cx cy = some CellStatus.Ship ∨
          readCell g1.field cx cy = some CellStatus.Empty) ∧
        (readCell g.field cx cy = none ↔ readCell g1.field cx cy = none)) :=
  ⟨fun _ _ _ _ _ _ _ h cx cy => placeShip_cell_step h cx cy,
    fun _ _ _ _ _ h => attackCell_cell_step h,
    fun _ _ _ _ _ _ h => (attackCell_throw_inv h).1,
    fun g g1 calls out h => run_cell_monotone calls g g1 out h⟩

/-- Instance of C14: on the field of `main`, cell (2,2) is attacked, a ship is then
offered for placement on it and the cell is attacked again. -/
theorem GameField_cell_status_one_directional_witness :
    ∃ g g1 : GameField, ∃ out : List Msg, mainField = some g ∧
      g.run [Call.attackCell 2 2, Call.placeShip (Ship.ctor 1 Orientation.Horizontal) 2 2,
        Call.attackCell 2 2, Call.attackCell 10 10] = some (g1, out) ∧
      readCell g.field 2 2 = some CellStatus.Ship ∧
      readCell g1.field 2 2 = some CellStatus.Empty ∧
      (readCell g1.field 2 2 = some CellStatus.Ship ∨
        readCell g1.field 2 2 = some CellStatus.Empty) :=
  (fun (g g1 : GameField) (out : List Msg) (hg : mainField = some g)
      (hrun : g.run [Call.attackCell 2 2,
        Call.placeShip (Ship.ctor 1 Orientation.Horizontal) 2 2,
        Call.attackCell 2 2, Call.attackCell 10 10] = some (g1, out))
      (h1 : readCell g.field 2 2 = some CellStatus.Ship)
      (h2 : readCell g1.field 2 2 = some CellStatus.Empty) =>
    ⟨g, g1, out, hg, hrun, h1, h2,
      ((GameField_cell_status_one_directional.2.2.2 g g1 _ out hrun) 2 2).2.1 h1⟩)
    _ _ _ rfl rfl rfl rfl

/-! ## The scan order of `attackCell` -/

theorem target_eq_of_readable (g : GameField) (hwf : g.wf) (ori : Orientation)
    (x y j : Nat) (c : CellStatus)
    (h : readCell g.field (if ori = Orientation.Horizontal then x + j else x)
      (if ori = Orientation.Vertical then y + j else y) = some c) :
    targetX ori x j = (if ori = Orientation.Horizontal then x + j else x) ∧
    targetY ori y j = (if ori = Orientation.Vertical then y + j else y) := by
  obtain ⟨hw, hh, hrows, hcols⟩ := hwf
  obtain ⟨row, hrow, _, hmem, hlt⟩ := readCell_eq_some h
  obtain ⟨hty, _⟩ := List.getElem?_eq_some.mp hrow
  rw [hcols row hmem] at hlt
  rw [hrows] at hty
  cases ori with
  | Horizontal =>
    simp only [if_true] at hlt
    have : wrap (x + j) = x + j := Nat.mod_eq_of_lt (by omega)
    simp [targetX, targetY, this]
  | Vertical =>
    simp only [if_true] at hty
    have : wrap (y + j) = y + j := Nat.mod_eq_of_lt (by omega)
    simp [targetX, targetY, this]

theorem segmentScan_notFound_of_cells (g : GameField) (hwf : g.wf) (ship : Ship) (x y : Nat)
    (h : ∀ j, j < ship.length →
      ∃ c, readCell g.field (if ship.orientation = Orientation.Horizontal then x + j else x)
        (if ship.orientation = Orientation.Vertical then y + j else y) = some c ∧
        c ≠ CellStatus.Ship) :
    segmentScan g.field ship.orientation x y ship.length 0 = SegmentScan.notFound := by
  apply segmentScan_eq_notFound
  intro k hk
  obtain ⟨c, hc, hne⟩ := h k hk
  obtain ⟨htx, hty⟩ := target_eq_of_readable g hwf ship.orientation x y k c hc
  rw [Nat.zero_add, htx, hty]
  exact ⟨c, hc, hne⟩

theorem segmentScan_found_of_cells (g : GameField) (hwf : g.wf) (ship : Ship) (x y j : Nat)
    (hj : j < ship.length)
    (hship : readCell g.field (if ship.orientation = Orientation.Horizontal then x + j else x)
      (if ship.orientation = Orientation.Vertical then y + j else y) = some CellStatus.Ship)
    (h : ∀ j1, j1 < j →
      ∃ c, readCell g.field (if ship.orientation = Orientation.Horizontal then x + j1 else x)
        (if ship.orientation = Orientation.Vertical then y + j1 else y) = some c ∧
        c ≠ CellStatus.Ship) :
    segmentScan g.field ship.orientation x y ship.length 0 =
      SegmentScan.found j (if ship.orientation = Orientation.Horizontal then x + j else x)
        (if ship.orientation = Orientation.Vertical then y + j else y) := by
  obtain ⟨htx, hty⟩ := target_eq_of_readable g hwf ship.orientation x y j _ hship
  have hfound := @segmentScan_eq_found g.field ship.orientation x y j ship.length 0 hj
    (by
      intro k1 hk1
      obtain ⟨c, hc, hne⟩ := h k1 hk1
      obtain ⟨htx1, hty1⟩ := target_eq_of_readable g hwf ship.orientation x y k1 c hc
      rw [Nat.zero_add, htx1, hty1]
      exact ⟨c, hc, hne⟩)
    (by rw [Nat.zero_add, htx, hty]; exact hship)
  rw [Nat.zero_add, htx, hty] at hfound
  exact hfound

/-- Claim C16. For a field satisfying the representation invariant, ships with as many
segments as their length, and in-bounds `(x, y)`: if `(i, j)` is the first pair in
lexicographic order (ships in insertion order, then offsets below the length) whose
cell, the attack coordinate shifted by `j` along the orientation of ship `i`, has status
`Ship`, all earlier scanned cells lying in the grid, then `attackCell` prints the hit on
`(i, j)` and nothing else, applies `takeDamage` to segment `j` of ship `i` and to no
other segment, sets exactly that cell to `Empty` and keeps width and height; if every
scanned cell lies in the grid and none has status `Ship`, it prints a miss and returns
the field unchanged. -/
theorem GameField_attackCell_scan_order (g : GameField) (x y : Nat) (hwf : g.wf)
    (hships : ∀ s ∈ g.shipManager.ships, s.wf) (hx : x < g.width) (hy : y < g.height) :
    (∀ (i j : Nat) (ship : Ship), g.shipManager.ships[i]? = some ship → j < ship.length →
      readCell g.field (if ship.orientation = Orientation.Horizontal then x + j else x)
        (if ship.orientation = Orientation.Vertical then y + j else y) =
        some CellStatus.Ship →
      (∀ (i1 j1 : Nat) (ship1 : Ship), g.shipManager.ships[i1]? = some ship1 →
        j1 < ship1.length → (i1 < i ∨ (i1 = i ∧ j1 < j)) →
        ∃ c, readCell g.field
          (if ship1.orientation = Orientation.Horizontal then x + j1 else x)
          (if ship1.orientation = Orientation.Vertical then y + j1 else y) = some c ∧
          c ≠ CellStatus.Ship) →
      ∃ g1 seg, ship.segments[j]? = some seg ∧
        g.attackCell x y = Result.ok g1 () [Msg.Hit i j] ∧
        g1.shipManager.ships = g.shipManager.ships.set i
          { ship with segments := ship.segments.set j seg.takeDamage } ∧
        readCell g1.field (if ship.orientation = Orientation.Horizontal then x + j else x)
          (if ship.orientation = Orientation.Vertical then y + j else y) =
          some CellStatus.Empty ∧
        (∀ cx cy,
          ¬ (cx = (if ship.orientation = Orientation.Horizontal then x + j else x) ∧
             cy = (if ship.orientation = Orientation.Vertical then y + j else y)) →
          readCell g1.field cx cy = readCell g.field cx cy) ∧
        g1.width = g.width ∧ g1.height = g.height) ∧
    ((∀ (i1 j1 : Nat) (ship1 : Ship), g.shipManager.ships[i1]? = some ship1 →
        j1 < ship1.length →
        ∃ c, readCell g.field
          (if ship1.orientation = Orientation.Horizontal then x + j1 else x)
          (if ship1.orientation = Orientation.Vertical then y + j1 else y) = some c ∧
          c ≠ CellStatus.Ship) →
      g.attackCell x y = Result.ok g () [Msg.Miss]) := by
  have hrange : ¬ (x ≥ g.width ∨ y ≥ g.height) := by omega
  constructor
  · intro i j ship hget hj hship hbefore
    have hseg := segmentScan_found_of_cells g hwf ship x y j hj hship
      (fun j1 hj1 => hbefore i j1 ship hget (by omega) (Or.inr ⟨rfl, hj1⟩))
    have hscan := @shipScan_eq_found g.field x y
      g.shipManager.ships 0 i ship j _ _ hget hseg
      (fun k1 ship1 hk1 hget1 => segmentScan_notFound_of_cells g hwf ship1 x y
        (fun j1 hj1 => hbefore k1 j1 ship1 hget1 hj1 (Or.inl hk1)))
    rw [Nat.zero_add] at hscan
    have hmem : ship ∈ g.shipManager.ships := by
      obtain ⟨hlt, hval⟩ := List.getElem?_eq_some.mp hget
      exact hval ▸ List.getElem_mem hlt
    obtain ⟨seg, hsegget, hattack⟩ := attackSegment_in_range ship j (hships ship hmem) hj
    obtain ⟨field1, hwrite⟩ := writeCell_of_readCell hship CellStatus.Empty
    refine ⟨GameField.mk g.width g.height field1
        (ShipManager.mk (g.shipManager.ships.set i
          (Ship.mk ship.length ship.orientation (ship.segments.set j seg.takeDamage)))),
      seg, hsegget, ?_, rfl, readCell_writeCell_same hwrite,
      fun cx cy hne => readCell_writeCell_other hwrite cx cy hne, rfl, rfl⟩
    unfold GameField.attackCell
    simp only [ShipManager.getShips]
    rw [if_neg hrange, hscan]
    simp only [hget, hattack, hwrite]
  · intro hall
    have hscan := @shipScan_eq_notFound g.field x y
      g.shipManager.ships 0
      (by
        intro ship hmem
        obtain ⟨i1, hi1, hval⟩ := List.getElem_of_mem hmem
        have hget : g.shipManager.ships[i1]? = some ship := by
          rw [List.getElem?_eq_getElem hi1, hval]
        exact segmentScan_notFound_of_cells g hwf ship x y
          (fun j1 hj1 => hall i1 j1 ship hget hj1))
    unfold GameField.attackCell
    simp only [ShipManager.getShips]
    rw [if_neg hrange, hscan]

/-- Instance of C16: the first attack of the scenario, at (2,2) on the field of `main`;
the first pair is (0,0). -/
theorem GameField_attackCell_scan_order_witness :
    ∃ g : GameField, mainField = some g ∧ g.wf ∧ (∀ s ∈ g.shipManager.ships, s.wf) ∧
      2 < g.width ∧ 2 < g.height ∧
      g.shipManager.ships[0]? = some (Ship.ctor 3 Orientation.Horizontal) ∧
      readCell g.field 2 2 = some CellStatus.Ship ∧
      ∃ g1 seg, (Ship.ctor 3 Orientation.Horizontal).segments[0]? = some seg ∧
        g.attackCell 2 2 = Result.ok g1 () [Msg.Hit 0 0] ∧
        g1.shipManager.ships = g.shipManager.ships.set 0
          { Ship.ctor 3 Orientation.Horizontal with
            segments := (Ship.ctor 3 Orientation.Horizontal).segments.set 0 seg.takeDamage } ∧
        readCell g1.field 2 2 = some CellStatus.Empty ∧
        (∀ cx cy, ¬ (cx = 2 ∧ cy = 2) → readCell g1.field cx cy = readCell g.field cx cy) ∧
        g1.width = g.width ∧ g1.height = g.height :=
  (fun (g : GameField) (hg : mainField = some g) (hwf : g.wf)
      (hships : ∀ s ∈ g.shipManager.ships, s.wf) (hx : 2 < g.width) (hy : 2 < g.height)
      (hget : g.shipManager.ships[0]? = some (Ship.ctor 3 Orientation.Horizontal))
      (hcell : readCell g.field 2 2 = some CellStatus.Ship) =>
    ⟨g, hg, hwf, hships, hx, hy, hget, hcell,
      (GameField_attackCell_scan_order g 2 2 hwf hships hx hy).1 0 0
        (Ship.ctor 3 Orientation.Horizontal) hget (by decide) hcell
        (fun i1 j1 _ _ _ h => by omega)⟩)
    _ rfl (by decide) (by decide) (by decide) (by decide) rfl rfl

/-! ## Counting the cells with status `Ship` -/

theorem count_set_balance {α : Type} [DecidableEq α] (v : α) :
    ∀ (l : List α) (i : Nat) (a b : α), l[i]? = some a →
      (l.set i b).count v + (if a = v then 1 else 0) =
        l.count v + (if b = v then 1 else 0) := by
  intro l
  induction l with
  | nil => intro i a b h; simp at h
  | cons c rest ih =>
    intro i a b h
    cases i with
    | zero =>
      simp only [List.getElem?_cons_zero, Option.some.injEq] at h
      subst h
      simp only [List.set_cons_zero, List.count_cons, beq_iff_eq]
      omega
    | succ i =>
      simp only [List.getElem?_cons_succ] at h
      have := ih i a b h
      simp only [List.set_cons_succ, List.count_cons]
      omega

theorem sum_map_set_balance {α : Type} (f : α → Nat) :
    ∀ (l : List α) (i : Nat) (a b : α), l[i]? = some a →
      ((l.set i b).map f).sum + f a = (l.map f).sum + f b := by
  intro l
  induction l with
  | nil => intro i a b h; simp at h
  | cons c rest ih =>
    intro i a b h
    cases i with
    | zero =>
      simp only [List.getElem?_cons_zero, Option.some.injEq] at h
      subst h
      simp only [List.set_cons_zero, List.map_cons, List.sum_cons]
      omega
    | succ i =>
      simp only [List.getElem?_cons_succ] at h
      have := ih i a b h
      simp only [List.set_cons_succ, List.map_cons, List.sum_cons]
      omega

theorem countShipCells_writeCell {field field1 : List (List CellStatus)} {tx ty : Nat}
    {c old : CellStatus} (hw : writeCell field tx ty c = some field1)
    (hr : readCell field tx ty = some old) :
    countShipCells field1 + (if old = CellStatus.Ship then 1 else 0) =
      countShipCells field + (if c = CellStatus.Ship then 1 else 0) := by
  obtain ⟨row, hrow, _, rfl⟩ := writeCell_eq_some hw
  have hcell : row[tx]? = some old := by
    unfold readCell at hr
    rw [hrow] at hr
    exact hr
  have h1 := count_set_balance CellStatus.Ship row tx old c hcell
  have h2 := sum_map_set_balance (fun r : List CellStatus => r.count CellStatus.Ship)
    field ty row (row.set tx c) hrow
  simp only [countShipCells]
  simp only at h2
  omega

theorem wf_writeCell {g : GameField} (hwf : g.wf) {field1 : List (List CellStatus)}
    {tx ty : Nat} {c : CellStatus} (hw : writeCell g.field tx ty c = some field1)
    (m : ShipManager) :
    GameField.wf { g with field := field1, shipManager := m } := by
  obtain ⟨row, hrow, _, rfl⟩ := writeCell_eq_some hw
  obtain ⟨hw1, hh, hrows, hcols⟩ := hwf
  obtain ⟨hty, hval⟩ := List.getElem?_eq_some.mp hrow
  refine ⟨hw1, hh, by simp only [List.length_set]; exact hrows, ?_⟩
  intro r hr
  rcases List.mem_or_eq_of_mem_set hr with hmem | heq
  · exact hcols r hmem
  · rw [heq, List.length_set]
    exact hcols row (hval ▸ List.getElem_mem hty)

/-- Reads that stay inside a vector shorter than `2^64` advance by one per step. -/
theorem wrap_add_of_in_bounds (a bound n : Nat) (hbound : bound < SIZE_RANGE)
    (h : ∀ k, k < n → wrap (a + k) < bound) :
    ∀ k, k < n → wrap (a + k) = wrap a + k := by
  intro k
  induction k with
  | zero => intro _; rfl
  | succ k ih =>
    intro hk
    have hprev := ih (by omega)
    have hlt := h k (by omega)
    have hstep : wrap (a + (k + 1)) = (wrap (a + k) + 1) % SIZE_RANGE := by
      unfold wrap
      rw [Nat.mod_add_mod, Nat.add_assoc]
    rw [hstep, Nat.mod_eq_of_lt (by omega), hprev]
    omega

theorem footprint_distinct (g : GameField) (hwf : g.wf) (ori : Orientation) (x y n : Nat)
    (h : ∀ k, k < n → ∃ c, readCell g.field (targetX ori x k) (targetY ori y k) = some c) :
    ∀ k1 k2, k1 < n → k2 < n → k1 ≠ k2 →
      ¬ (targetX ori x k1 = targetX ori x k2 ∧ targetY ori y k1 = targetY ori y k2) := by
  obtain ⟨hw, hh, hrows, hcols⟩ := hwf
  cases ori with
  | Horizontal =>
    have hb : ∀ k, k < n → wrap (x + k) < g.width := by
      intro k hk
      obtain ⟨c, hc⟩ := h k hk
      obtain ⟨row, _, _, hmem, hlt⟩ := readCell_eq_some hc
      rw [hcols row hmem] at hlt
      simpa [targetX] using hlt
    have hadd := wrap_add_of_in_bounds x g.width n hw hb
    intro k1 k2 hk1 hk2 hne hc
    have := hc.1
    simp only [targetX, if_true] at this
    rw [hadd k1 hk1, hadd k2 hk2] at this
    omega
  | Vertical =>
    have hb : ∀ k, k < n → wrap (y + k) < g.height := by
      intro k hk
      obtain ⟨c, hc⟩ := h k hk
      obtain ⟨row, hrow, _, _, _⟩ := readCell_eq_some hc
      obtain ⟨hlt, _⟩ := List.getElem?_eq_some.mp hrow
      rw [hrows] at hlt
      simpa [targetY] using hlt
    have hadd := wrap_add_of_in_bounds y g.height n hh hb
    intro k1 k2 hk1 hk2 hne hc
    have := hc.2
    simp only [targetY, if_true] at this
    rw [hadd k1 hk1, hadd k2 hk2] at this
    omega

theorem markLoop_count {ori : Orientation} {x y : Nat} :
    ∀ (n i : Nat) (field field1 : List (List CellStatus)),
      markLoop field ori x y n i = some field1 →
      (∀ k, k < n →
        readCell field (targetX ori x (i + k)) (targetY ori y (i + k)) =
          some CellStatus.Unknown) →
      (∀ k1 k2, k1 < n → k2 < n → k1 ≠ k2 →
        ¬ (targetX ori x (i + k1) = targetX ori x (i + k2) ∧
           targetY ori y (i + k1) = targetY ori y (i + k2))) →
      countShipCells field1 = countShipCells field + n := by
  intro n
  induction n with
  | zero =>
    intro i field field1 h _ _
    simp only [markLoop, Option.some.injEq] at h
    rw [← h]
    rfl
  | succ n ih =>
    intro i field field1 h hunknown hdist
    unfold markLoop at h
    cases hw : writeCell field (targetX ori x i) (targetY ori y i) CellStatus.Ship with
    | none => rw [hw] at h; cases h
    | some field0 =>
      rw [hw] at h
      have h0 := hunknown 0 (by omega)
      rw [Nat.add_zero] at h0
      have hcount0 := countShipCells_writeCell hw h0
      simp only [if_true] at hcount0
      have hshift : ∀ k, i + 1 + k = i + (k + 1) := fun k => by omega
      have hne0 : ∀ k, k < n →
          ¬ (targetX ori x (i + 1 + k) = targetX ori x i ∧
             targetY ori y (i + 1 + k) = targetY ori y i) := by
        intro k hk
        rw [hshift k]
        have := hdist (k + 1) 0 (by omega) (by omega) (by omega)
        rw [Nat.add_zero] at this
        exact this
      have hrest := ih (i + 1) field0 field1 h
        (by
          intro k hk
          rw [readCell_writeCell_other hw _ _ (hne0 k hk), hshift k]
          exact hunknown (k + 1) (by omega))
        (by
          intro k1 k2 hk1 hk2 hne
          rw [hshift k1, hshift k2]
          exact hdist (k1 + 1) (k2 + 1) (by omega) (by omega) (by omega))
      rw [hrest]
      have hu : (if CellStatus.Unknown = CellStatus.Ship then 1 else 0) = 0 := by decide
      rw [hu] at hcount0
      omega

theorem wf_markLoop {ori : Orientation} {x y : Nat} :
    ∀ (n i : Nat) (g : GameField) (field1 : List (List CellStatus)), g.wf →
      markLoop g.field ori x y n i = some field1 → ∀ m : ShipManager,
      GameField.wf { g with field := field1, shipManager := m } := by
  intro n
  induction n with
  | zero =>
    intro i g field1 hwf h m
    simp only [markLoop, Option.some.injEq] at h
    subst h
    exact hwf
  | succ n ih =>
    intro i g field1 hwf h m
    unfold markLoop at h
    cases hw : writeCell g.field (targetX ori x i) (targetY ori y i) CellStatus.Ship with
    | none => rw [hw] at h; cases h
    | some field0 =>
      rw [hw] at h
      exact ih (i + 1) { g with field := field0 } field1
        (wf_writeCell hwf hw g.shipManager) h m

theorem placeShip_true_count {g g1 : GameField} {ship : Ship} {x y : Nat} {out : List Msg}
    (hwf : g.wf) (h : g.placeShip ship x y = Result.ok g1 true out) :
    g1.wf ∧ countShipCells g1.field = countShipCells g.field + ship.length ∧
      g1.shipManager.totalLength = g.shipManager.totalLength + ship.length ∧ out = [] := by
  obtain ⟨hfree, field1, hmark, hg1, hout⟩ := placeShip_true_inv h
  have hread := collisionLoop_free ship.length 0 hfree
  have hdist := footprint_distinct g hwf ship.orientation x y ship.length
    (fun k hk => ⟨_, by simpa using hread k hk⟩)
  have hcount := markLoop_count ship.length 0 g.field field1 hmark hread
    (by
      intro k1 k2 hk1 hk2 hne
      rw [Nat.zero_add, Nat.zero_add]
      exact hdist k1 k2 hk1 hk2 hne)
  subst hg1
  refine ⟨wf_markLoop ship.length 0 g field1 hwf hmark _, hcount, ?_, hout⟩
  simp [ShipManager.totalLength, ShipManager.addShip, Ship.getLength]

theorem attackSegment_ok_length {s s1 : Ship} {index : Nat} {u : Unit} {o : List Msg}
    (h : s.attackSegment index = Result.ok s1 u o) : s1.length = s.length := by
  unfold Ship.attackSegment at h
  split at h
  · cases h
  · split at h
    · cases h
    · simp only [Result.ok.injEq] at h
      rw [← h.1]

theorem attackCell_ok_count {g g1 : GameField} {x y : Nat} {out : List Msg} (hwf : g.wf)
    (h : g.attackCell x y = Result.ok g1 () out) :
    g1.wf ∧ g1.shipManager.totalLength = g.shipManager.totalLength ∧
      countShipCells g1.field + countHits out = countShipCells g.field ∧
      (out = [Msg.Miss] ∨ ∃ i j, out = [Msg.Hit i j]) := by
  obtain ⟨_, _, hcase⟩ := attackCell_ok_inv h
  rcases hcase with ⟨_, hg, hout⟩ | ⟨i, j, tx, ty, ship, ship1, field1, o, hscan, hget, hatt,
    hwrite, hg, hout⟩
  · subst hg
    subst hout
    exact ⟨hwf, rfl, rfl, Or.inl rfl⟩
  · obtain ⟨k, s, _, _, hseg, _⟩ := shipScan_found_inv _ _ _ _ _ _ hscan
    obtain ⟨_, _, _, _, _, hship, _⟩ := segmentScan_found_inv _ _ _ _ _ hseg
    have hcount := countShipCells_writeCell hwrite hship
    have he : (if CellStatus.Empty = CellStatus.Ship then 1 else 0) = 0 := by decide
    simp only [if_true] at hcount
    rw [he] at hcount
    have hlen := attackSegment_ok_length hatt
    have htotal := sum_map_set_balance Ship.getLength g.shipManager.ships i ship ship1 hget
    have hlen1 : Ship.getLength ship1 = Ship.getLength ship := hlen
    subst hg
    subst hout
    refine ⟨wf_writeCell hwf hwrite _, ?_, ?_, Or.inr ⟨i, j, rfl⟩⟩
    · simp only [ShipManager.totalLength]
      omega
    · simp only [countHits, List.countP_cons_of_pos, List.countP_nil]
      omega

theorem call_count {g g1 : GameField} {c : Call} {out : List Msg} (hwf : g.wf)
    (h : g.call c = some (g1, out)) :
    g1.wf ∧ countShipCells g1.field + countHits out + g.shipManager.totalLength =
      countShipCells g.field + g1.shipManager.totalLength := by
  cases c with
  | placeShip ship x y =>
    simp only [GameField.call] at h
    split at h
    · rename_i g2 b o hcall
      simp only [Option.some.injEq, Prod.mk.injEq] at h
      obtain ⟨rfl, rfl⟩ := h
      cases b with
      | true =>
        obtain ⟨hwf1, hc, ht, ho⟩ := placeShip_true_count hwf hcall
        subst ho
        refine ⟨hwf1, ?_⟩
        simp only [countHits, List.countP_nil]
        omega
      | false =>
        obtain ⟨hg, ho⟩ := placeShip_false_inv hcall
        subst hg
        subst ho
        exact ⟨hwf, rfl⟩
    · rename_i hcall
      exact absurd hcall (fun hc => placeShip_throw_inv hc)
    · cases h
  | attackCell x y =>
    simp only [GameField.call] at h
    split at h
    · rename_i g2 u o hcall
      simp only [Option.some.injEq, Prod.mk.injEq] at h
      obtain ⟨rfl, rfl⟩ := h
      obtain ⟨hwf1, ht, hc, _⟩ := attackCell_ok_count hwf hcall
      exact ⟨hwf1, by omega⟩
    · rename_i g2 e o hcall
      simp only [Option.some.injEq, Prod.mk.injEq] at h
      obtain ⟨rfl, rfl⟩ := h
      obtain ⟨hg, ho⟩ := attackCell_throw_inv hcall
      subst hg
      subst ho
      exact ⟨hwf, rfl⟩
    · cases h

theorem run_count (calls : List Call) :
    ∀ (g g1 : GameField) (out : List Msg), g.wf → g.run calls = some (g1, out) →
      g1.wf ∧ countShipCells g1.field + countHits out + g.shipManager.totalLength =
        countShipCells g.field + g1.shipManager.totalLength := by
  induction calls with
  | nil =>
    intro g g1 out hwf h
    simp only [GameField.run, Option.some.injEq, Prod.mk.injEq] at h
    obtain ⟨rfl, rfl⟩ := h
    exact ⟨hwf, rfl⟩
  | cons c rest ih =>
    intro g g1 out hwf h
    simp only [GameField.run] at h
    split at h
    · cases h
    · rename_i g2 out1 hcall
      split at h
      · cases h
      · rename_i g3 out2 hrun
        simp only [Option.some.injEq, Prod.mk.injEq] at h
        obtain ⟨rfl, rfl⟩ := h
        obtain ⟨hwf2, h2⟩ := call_count hwf hcall
        obtain ⟨hwf3, h3⟩ := ih g2 g3 out2 hwf2 hrun
        refine ⟨hwf3, ?_⟩
        have happ : countHits (out1 ++ out2) = countHits out1 + countHits out2 := by
          simp only [countHits, List.countP_append]
        omega

theorem ctor_fresh_count {w h : Nat} {g : GameField} (hw : w < SIZE_RANGE)
    (hh : h < SIZE_RANGE) (hctor : GameField.ctor w h = Except.ok g) :
    g.wf ∧ countShipCells g.field = 0 ∧ g.shipManager.totalLength = 0 := by
  unfold GameField.ctor GameField.ctorWith at hctor
  simp only at hctor
  split at hctor
  · cases hctor
  split at hctor
  · cases hctor
  split at hctor
  · cases hctor
  · simp only [Except.ok.injEq] at hctor
    subst hctor
    refine ⟨⟨hw, hh, by simp, ?_⟩, ?_, rfl⟩
    · intro row hrow
      rw [List.eq_of_mem_replicate hrow]
      simp
    · simp only [countShipCells, List.map_replicate]
      have : (List.replicate w CellStatus.Unknown).count CellStatus.Ship = 0 := by
        rw [List.count_replicate]
        simp
      rw [this]
      simp

/-- Claim C19. On every field reached from a freshly constructed one by a sequence of
`placeShip` and `attackCell` calls, the number of cells with status `Ship` plus the number
of hits printed equals the sum of the lengths of the registered ships, so the hits never
exceed that sum. On such a field a hit lowers the number of `Ship` cells by exactly one, a
miss and a failed placement leave it unchanged, and a successful placement raises it, and
the sum of the lengths, by the length of the ship. -/
theorem GameField_ship_cells_conserved :
    (∀ (w h : Nat) (g0 g : GameField) (calls : List Call) (out : List Msg),
      w < SIZE_RANGE → h < SIZE_RANGE → GameField.ctor w h = Except.ok g0 →
      g0.run calls = some (g, out) →
      g.wf ∧ countShipCells g.field + countHits out = g.shipManager.totalLength ∧
        countHits out ≤ g.shipManager.totalLength) ∧
    (∀ (g g1 : GameField) (x y : Nat) (out : List Msg), g.wf →
      g.attackCell x y = Result.ok g1 () out →
      ((∃ i j, out = [Msg.Hit i j]) ∧ countShipCells g1.field + 1 = countShipCells g.field) ∨
      (out = [Msg.Miss] ∧ countShipCells g1.field = countShipCells g.field)) ∧
    (∀ (g g1 : GameField) (ship : Ship) (x y : Nat) (out : List Msg),
      g.placeShip ship x y = Result.ok g1 false out →
      countShipCells g1.field = countShipCells g.field ∧
        g1.shipManager.totalLength = g.shipManager.totalLength) ∧
    (∀ (g g1 : GameField) (ship : Ship) (x y : Nat) (out : List Msg), g.wf →
      g.placeShip ship x y = Result.ok g1 true out →
      countShipCells g1.field = countShipCells g.field + ship.length ∧
        g1.shipManager.totalLength = g.shipManager.totalLength + ship.length) := by
  refine ⟨?_, ?_, ?_, ?_⟩
  · intro w h g0 g calls out hw hh hctor hrun
    obtain ⟨hwf0, hc0, ht0⟩ := ctor_fresh_count hw hh hctor
    obtain ⟨hwf, hbal⟩ := run_count calls g0 g out hwf0 hrun
    exact ⟨hwf, by omega, by omega⟩
  · intro g g1 x y out hwf hcall
    obtain ⟨_, _, hc, hout⟩ := attackCell_ok_count hwf hcall
    rcases hout with rfl | ⟨i, j, rfl⟩
    · exact Or.inr ⟨rfl, by simpa [countHits] using hc⟩
    · exact Or.inl ⟨⟨i, j, rfl⟩, by simpa [countHits] using hc⟩
  · intro g g1 ship x y out hcall
    obtain ⟨hg, _⟩ := placeShip_false_inv hcall
    rw [hg]
    exact ⟨rfl, rfl⟩
  · intro g g1 ship x y out hwf hcall
    obtain ⟨_, hc, ht, _⟩ := placeShip_true_count hwf hcall
    exact ⟨hc, ht⟩

/-- Instance of C19: the two placements of `main`, a hit at (2,2), a miss at (0,0) and a
rejected placement; 4 cells are `Ship`, 1 hit was printed, the lengths sum to 5. -/
theorem GameField_ship_cells_conserved_witness :
    ∃ g0 g : GameField, ∃ out : List Msg,
      (10 < SIZE_RANGE ∧ GameField.ctor 10 10 = Except.ok g0) ∧
      g0.run [Call.placeShip (Ship.ctor 3 Orientation.Horizontal) 2 2,
        Call.placeShip (Ship.ctor 2 Orientation.Vertical) 5 5, Call.attackCell 2 2,
        Call.attackCell 0 0, Call.placeShip (Ship.ctor 3 Orientation.Horizontal) 8 0] =
        some (g, out) ∧
      out = [Msg.Hit 0 0, Msg.Miss] ∧ countShipCells g.field = 4 ∧
      g.shipManager.totalLength = 5 ∧
      (g.wf ∧ countShipCells g.field + countHits out = g.shipManager.totalLength ∧
        countHits out ≤ g.shipManager.totalLength) :=
  (fun (g0 g : GameField) (out : List Msg) (hctor : GameField.ctor 10 10 = Except.ok g0)
      (hrun : g0.run [Call.placeShip (Ship.ctor 3 Orientation.Horizontal) 2 2,
        Call.placeShip (Ship.ctor 2 Orientation.Vertical) 5 5, Call.attackCell 2 2,
        Call.attackCell 0 0, Call.placeShip (Ship.ctor 3 Orientation.Horizontal) 8 0] =
        some (g, out))
      (hout : out = [Msg.Hit 0 0, Msg.Miss]) (hcells : countShipCells g.field = 4)
      (htotal : g.shipManager.totalLength = 5) =>
    ⟨g0, g, out, ⟨by decide, hctor⟩, hrun, hout, hcells, htotal,
      GameField_ship_cells_conserved.1 10 10 g0 g _ out (by decide) (by decide) hctor hrun⟩)
    _ _ _ rfl rfl rfl rfl rfl

/-! ## The driver -/

theorem main_eq_mainReport (x y : Nat) :
    main x y =
      match mainField with
      | some field =>
        mainReport field
          ((ShipManager.ctor.addShip (Ship.ctor 3 Orientation.Horizontal)).addShip
            (Ship.ctor 2 Orientation.Vertical)) x y
      | none => MainResult.undefined := rfl

/-- Claim C20. Whenever the attack `field.attackCell(x, y)` of `main` completes, `main`
runs to its end and what it prints after "State of ships after attack:" is the line of
ship 0 with three `Intact` segments followed by the line of ship 1 with two `Intact`
segments, whatever the attack printed (hit or miss) and whatever it did to the field:
the report comes from the local registry, which holds copies made before the attack. -/
theorem main_ship_report_ignores_attack (x y : Nat) (field field1 : GameField)
    (out : List Msg) (hfield : mainField = some field)
    (hattack : field.attackCell x y = Result.ok field1 () out) :
    main x y = MainResult.finished
      (Line.prompt :: out.map Line.msg ++
        [Line.text "State of ships after attack:"] ++
        [Line.ship 0 ["Intact", "Intact", "Intact"], Line.ship 1 ["Intact", "Intact"]] ++
        [Line.text "Game field after attack:"] ++ field1.printField) ∧
    (Line.ship 0 ["Intact", "Intact", "Intact"]).render =
      "Ship 0: Segments: [Intact] [Intact] [Intact] \n" ∧
    (Line.ship 1 ["Intact", "Intact"]).render = "Ship 1: Segments: [Intact] [Intact] \n" ∧
    (out = [Msg.Miss] ∨ ∃ i j, out = [Msg.Hit i j]) := by
  refine ⟨?_, by decide, by decide, ?_⟩
  · rw [main_eq_mainReport, hfield]
    simp only [mainReport, hattack]
    rfl
  · obtain ⟨_, _, hcase⟩ := attackCell_ok_inv hattack
    rcases hcase with ⟨_, _, hout⟩ | ⟨i, j, _, _, _, _, _, _, _, _, _, _, _, hout⟩
    · exact Or.inl hout
    · exact Or.inr ⟨i, j, hout⟩

/-- Instance of C20: the attack at (2,2), a hit. The registry of the attacked field
holds a `Damaged` segment, the report shows none. -/
theorem main_ship_report_ignores_attack_witness :
    ∃ field field1 : GameField, mainField = some field ∧
      field.attackCell 2 2 = Result.ok field1 () [Msg.Hit 0 0] ∧
      field1.shipManager.printShips =
        [Line.ship 0 ["Damaged", "Intact", "Intact"], Line.ship 1 ["Intact", "Intact"]] ∧
      main 2 2 = MainResult.finished
        (Line.prompt :: [Msg.Hit 0 0].map Line.msg ++
          [Line.text "State of ships after attack:"] ++
          [Line.ship 0 ["Intact", "Intact", "Intact"], Line.ship 1 ["Intact", "Intact"]] ++
          [Line.text "Game field after attack:"] ++ field1.printField) :=
  (fun (field field1 : GameField) (hfield : mainField = some field)
      (hattack : field.attackCell 2 2 = Result.ok field1 () [Msg.Hit 0 0])
      (hown : field1.shipManager.printShips =
        [Line.ship 0 ["Damaged", "Intact", "Intact"], Line.ship 1 ["Intact", "Intact"]]) =>
    ⟨field, field1, hfield, hattack, hown,
      (main_ship_report_ignores_attack 2 2 field field1 [Msg.Hit 0 0] hfield hattack).1⟩)
    _ _ rfl rfl rfl

end Game
